import Mathlib

/-!
Verification of the MiniSaxCpp / EmbeddedStAX streaming XML reader and writer.

The reader's top-level state machine is embedded from `XmlReader.cpp`
(`src/unnamed/part_000`); the writer from `src/XmlWriter.cpp`; the item-parser
result type from `src/XmlItemParser.h`.  Strings are modelled as lists of code
points (`List Char`); the UTF-8 layer is abstracted away, as the spec treats the
input buffer as a sequence of code points.

The token sub-parsers (`TokenTypeParser`, `ProcessingInstructionParser`), the
parsing buffer and the `XmlValidator` predicates are code of this repository
that is not under `src/`; they are modelled from the spec and marked
`Modelled from the spec:` in their doc comments.
-/

namespace MiniSaxVerify

/-- XML 1.0 whitespace (`#x20 #x9 #xD #xA`), per spec section 4.2. -/
def isXmlWhitespace (ch : Char) : Bool :=
  ch = ' ' || ch = '\t' || ch = '\r' || ch = '\n'

/-- Modelled from the spec: the name-character predicates (`is_name_start`)
are external collaborators (XML 1.0 NameStartChar production, section 6 of the
spec); their implementation is not under `src/`. -/
def isNameStart (ch : Char) : Bool :=
  let n := ch.toNat
  ch = ':' || ch = '_' ||
  (0x41 ≤ n && n ≤ 0x5A) || (0x61 ≤ n && n ≤ 0x7A) ||
  (0xC0 ≤ n && n ≤ 0xD6) || (0xD8 ≤ n && n ≤ 0xF6) ||
  (0xF8 ≤ n && n ≤ 0x2FF) || (0x370 ≤ n && n ≤ 0x37D) ||
  (0x37F ≤ n && n ≤ 0x1FFF) || (0x200C ≤ n && n ≤ 0x200D) ||
  (0x2070 ≤ n && n ≤ 0x218F) || (0x2C00 ≤ n && n ≤ 0x2FEF) ||
  (0x3001 ≤ n && n ≤ 0xD7FF) || (0xF900 ≤ n && n ≤ 0xFDCF) ||
  (0xFDF0 ≤ n && n ≤ 0xFFFD) || (0x10000 ≤ n && n ≤ 0xEFFFF)

/-- Modelled from the spec: the XML 1.0 NameChar production (`is_name_char`),
an external collaborator whose implementation is not under `src/`. -/
def isNameChar (ch : Char) : Bool :=
  let n := ch.toNat
  isNameStart ch || ch = '-' || ch = '.' ||
  (0x30 ≤ n && n ≤ 0x39) || n = 0xB7 ||
  (0x300 ≤ n && n ≤ 0x36F) || (0x203F ≤ n && n ≤ 0x2040)

/-- ASCII letter, used by the encoding-name production of the spec. -/
def isAsciiLetter (ch : Char) : Bool :=
  ('A' ≤ ch && ch ≤ 'Z') || ('a' ≤ ch && ch ≤ 'z')

/-- ASCII digit. -/
def isAsciiDigit (ch : Char) : Bool :=
  '0' ≤ ch && ch ≤ '9'

/-- Code-point-wise lowercasing, used for the case-insensitive comparison of a
processing-instruction target with `xml`. -/
def toLowerL (s : List Char) : List Char :=
  s.map Char.toLower

namespace EmbeddedStAX

/-- Result of matching a fixed literal against the front of the buffer.
Incremental: a proper prefix of the literal reports "need more". -/
inductive LitStep where
  | litNeedMore
  | litMismatch
  | litMatched (rest : List Char)
deriving DecidableEq

/-- Incrementally match the literal `lit` against the front of `s`. -/
def matchLit : List Char → List Char → LitStep
  | [], s => .litMatched s
  | _ :: _, [] => .litNeedMore
  | l :: ls, ch :: rest => if ch = l then matchLit ls rest else .litMismatch

/-- Split the buffer at the first occurrence of the code point `q`:
returns the content before `q` and the rest after it, or `none` when `q` has
not arrived yet. -/
def splitAtChar (q : Char) : List Char → Option (List Char × List Char)
  | [] => none
  | ch :: rest =>
    if ch = q then some ([], rest)
    else
      match splitAtChar q rest with
      | none => none
      | some (v, r) => some (ch :: v, r)

/-- Split the buffer at the first occurrence of the two-code-point terminator
`?>` of a processing instruction; `none` when it has not arrived yet. -/
def splitAtPiEnd : List Char → Option (List Char × List Char)
  | [] => none
  | [_] => none
  | ch :: c2 :: rest =>
    if ch = '?' && c2 = '>' then some ([], rest)
    else
      match splitAtPiEnd (c2 :: rest) with
      | none => none
      | some (d, r) => some (ch :: d, r)

/-- Outcome of reading an XML Name from the front of the buffer. -/
inductive NameStep where
  | needMore
  | err
  | ok (name rest : List Char)
deriving DecidableEq

/-- Tail of `readName`: accumulate name characters until the first
non-name character (which terminates the name and is not consumed). -/
def readNameGo (acc : List Char) : List Char → NameStep
  | [] => .needMore
  | ch :: rest =>
    if isNameChar ch then readNameGo (acc ++ [ch]) rest
    else .ok acc (ch :: rest)

/-- Modelled from the spec: the item parser's `ReadName` action (spec
section 4.2) — an XML Name per the NameStart/NameChar classes, terminated by
the first non-NameChar code point; incremental (`needMore` while the buffer
ends inside the name). The implementation is not under `src/`. -/
def readName : List Char → NameStep
  | [] => .needMore
  | ch :: rest =>
    if isNameStart ch then readNameGo [ch] rest
    else .err

/-- Whitespace trimming applied to the data of a generic processing
instruction (spec scenario 1: input `<?pitarget   pidata   ?>` yields data
`pidata`). -/
def trimWs (s : List Char) : List Char :=
  ((s.dropWhile fun ch => isXmlWhitespace ch).reverse.dropWhile
      fun ch => isXmlWhitespace ch).reverse

/-- `AbstractTokenParser::TokenType` of the reader generation of the library:
the token kinds the `XmlReader` in `src/unnamed/part_000` dispatches on. -/
inductive TokenType where
  | whitespace
  | processingInstruction
  | documentType
  | comment
  | cData
  | startOfElement
  | endOfElement
  | xmlDeclaration
deriving DecidableEq

/-- Outcome of one run of the token-type classifier: need more data, a
classified token with the buffer that remains after the consumed sentinel,
or a syntax error. -/
inductive ClassifyOutcome where
  | needMoreData
  | error
  | found (t : TokenType) (rest : List Char)
deriving DecidableEq

/-- Modelled from the spec: the `TokenTypeParser` (`TokenTypeParser.cpp` is
not under `src/`).  Classifies the next lexical item from its prefix, per the
item-classification table of spec section 4.2: `<?` is a processing
instruction, `<!--` a comment, `<![CDATA[` CDATA, `<!` otherwise a document
type, `</` end of element, `<` + NameStart a start of element, and a leading
whitespace code point reports `Whitespace`.  Prefix matching is strictly
incremental: a partial sentinel yields `needMoreData`.

Helper `classifyDash`: the buffer after a `<!-` prefix — a second `-`
completes the comment sentinel, anything else is a document type (consuming
only the `<!`). -/
def classifyDash (r3 : List Char) : ClassifyOutcome :=
  match r3 with
  | [] => .needMoreData
  | c4 :: r4 =>
    if c4 = '-' then .found .comment r4
    else .found .documentType ('-' :: c4 :: r4)

/-- Helper `classifyCdata`: the buffer after a `<![` prefix — the literal
`CDATA[` completes the CDATA sentinel, a mismatch is a document type
(consuming only the `<!`). -/
def classifyCdata (r3 : List Char) : ClassifyOutcome :=
  match matchLit ("CDATA[".toList) r3 with
  | .litNeedMore => .needMoreData
  | .litMatched rest => .found .cData rest
  | .litMismatch => .found .documentType ('[' :: r3)

/-- Helper `classifyBang`: the buffer after a `<!` sentinel — `<!--` is a
comment, `<![CDATA[` is CDATA, any other continuation is a document type
(consuming only the `<!`). -/
def classifyBang (r2 : List Char) : ClassifyOutcome :=
  match r2 with
  | [] => .needMoreData
  | c3 :: r3 =>
    if c3 = '-' then classifyDash r3
    else if c3 = '[' then classifyCdata r3
    else .found .documentType (c3 :: r3)

/-- Helper `classifyLt`: the buffer after a `<` sentinel. -/
def classifyLt (r : List Char) : ClassifyOutcome :=
  match r with
  | [] => .needMoreData
  | c2 :: r2 =>
    if c2 = '?' then .found .processingInstruction r2
    else if c2 = '!' then classifyBang r2
    else if c2 = '/' then .found .endOfElement r2
    else if isNameStart c2 then .found .startOfElement (c2 :: r2)
    else .error

/-- The entry point of the classifier. -/
def classifyCore : List Char → ClassifyOutcome
  | [] => .needMoreData
  | ch :: r =>
    if isXmlWhitespace ch then .found .whitespace (ch :: r)
    else if ch = '<' then classifyLt r
    else .error

/-- The token-type parser with its option: with
`Option_IgnoreLeadingWhitespace` set, leading XML whitespace is skipped before
classification (spec section 4.2). -/
def classifyTok (ignoreWs : Bool) (s : List Char) : ClassifyOutcome :=
  if ignoreWs then classifyCore (s.dropWhile fun ch => isXmlWhitespace ch)
  else classifyCore s

/-- Outcome of reading one item of an XML declaration's attribute-like tail:
the closing `?>`, or one `name=value` pair, incremental. -/
inductive DeclItemStep where
  | needMore
  | err
  | endOfDecl (rest : List Char)
  | attr (name value rest : List Char)
deriving DecidableEq

/-- The closing `?>` of an XML declaration, after its `?` has been seen. -/
def readDeclEnd (s2 : List Char) : DeclItemStep :=
  match s2 with
  | [] => .needMore
  | c2 :: rest => if c2 = '>' then .endOfDecl rest else .err

/-- The quoted value of an XML-declaration pseudo-attribute: an opening
quote or apostrophe, the content, and the matching closing quote. -/
def readDeclValue (n r2 : List Char) : DeclItemStep :=
  match r2.dropWhile fun c0 => isXmlWhitespace c0 with
  | [] => .needMore
  | q :: r3 =>
    if q = '"' || q = '\'' then
      match splitAtChar q r3 with
      | none => .needMore
      | some (v, r4) => .attr n v r4
    else .err

/-- The `= 'value'` part of an XML-declaration pseudo-attribute, after its
name has been read. -/
def readDeclEq (n r1 : List Char) : DeclItemStep :=
  match r1.dropWhile fun c0 => isXmlWhitespace c0 with
  | [] => .needMore
  | e1 :: r2 => if e1 = '=' then readDeclValue n r2 else .err

/-- Modelled from the spec: one step of the XML-declaration tail — skip
whitespace, then either the closing `?>` or one `name = 'value'` /
`name = "value"` pair (spec section 4.3, XmlDeclaration mode of the
ProcessingInstruction parser; the implementation is not under `src/`). -/
def readDeclItem (s : List Char) : DeclItemStep :=
  match s.dropWhile fun ch => isXmlWhitespace ch with
  | [] => .needMore
  | ch :: s2 =>
    if ch = '?' then readDeclEnd s2
    else
      match readName (ch :: s2) with
      | .needMore => .needMore
      | .err => .err
      | .ok n r1 => readDeclEq n r1

/-- Outcome of reading the whole attribute-like tail of an XML declaration. -/
inductive DeclTailStep where
  | needMore
  | err
  | done (attrs : List (List Char × List Char)) (rest : List Char)
deriving DecidableEq

/-- Modelled from the spec: the attribute-like tail of an XML declaration —
at most three `name=value` pairs (`version`, `encoding`, `standalone`)
followed by `?>`; a fourth pair is an error (spec section 4.3). -/
def readDeclTail (s : List Char) : DeclTailStep :=
  match readDeclItem s with
  | .needMore => .needMore
  | .err => .err
  | .endOfDecl rest => .done [] rest
  | .attr n1 v1 r1 =>
    match readDeclItem r1 with
    | .needMore => .needMore
    | .err => .err
    | .endOfDecl rest => .done [(n1, v1)] rest
    | .attr n2 v2 r2 =>
      match readDeclItem r2 with
      | .needMore => .needMore
      | .err => .err
      | .endOfDecl rest => .done [(n1, v1), (n2, v2)] rest
      | .attr n3 v3 r3 =>
        match readDeclItem r3 with
        | .needMore => .needMore
        | .err => .err
        | .endOfDecl rest => .done [(n1, v1), (n2, v2), (n3, v3)] rest
        | .attr _ _ _ => .err

/-- Outcome of the `ProcessingInstructionParser` on the buffer that follows
the consumed `<?` sentinel. -/
inductive PiParseOutcome where
  | needMoreData
  | error
  | piRead (target data rest : List Char)
  | xmlDeclRead (attrs : List (List Char × List Char)) (rest : List Char)
deriving DecidableEq

/-- Modelled from the spec: the `ProcessingInstructionParser`
(`ProcessingInstructionParser.cpp` is not under `src/`).  Reads the target
name; when its lowercased form is `xml` it parses the XML-declaration
attribute tail, otherwise it captures the PI data up to `?>`, with the
whitespace separating target and data consumed and trailing whitespace
trimmed (spec section 4.3 and end-to-end scenario 1). -/
def piParse (s : List Char) : PiParseOutcome :=
  match readName s with
  | .needMore => .needMoreData
  | .err => .error
  | .ok name r =>
    if toLowerL name = "xml".toList then
      match readDeclTail r with
      | .needMore => .needMoreData
      | .err => .error
      | .done attrs rest => .xmlDeclRead attrs rest
    else
      match splitAtPiEnd r with
      | none => .needMoreData
      | some (d, rest) => .piRead name (trimWs d) rest

/-- The `standalone` pseudo-attribute value of an XML declaration
(`Tri ∈ {Yes, No, Unset}` per spec section 3). -/
inductive Standalone where
  | unset
  | yes
  | no
deriving DecidableEq

/-- Modelled from the spec: `Common::XmlDeclaration` (not under `src/`);
`{version, encoding?, standalone}` per spec section 3. -/
structure XmlDeclaration where
  version : List Char
  encoding : Option (List Char)
  standalone : Standalone
deriving DecidableEq

/-- The cleared XML declaration (`XmlDeclaration::clear`). -/
def emptyXmlDeclaration : XmlDeclaration :=
  ⟨[], none, .unset⟩

/-- Modelled from the spec: `Common::ProcessingInstruction` (not under
`src/`); `{target, data}` per spec section 3. -/
structure ProcessingInstruction where
  piTarget : List Char
  piData : List Char
deriving DecidableEq

/-- The cleared processing instruction (`ProcessingInstruction::clear`). -/
def emptyProcessingInstruction : ProcessingInstruction :=
  ⟨[], []⟩

/-- Modelled from the spec: `ProcessingInstruction::isValid` — the target is
a legal XML Name whose lowercased form is not `xml` (spec section 3). -/
def piIsValid (pi : ProcessingInstruction) : Bool :=
  (match pi.piTarget with
   | [] => false
   | ch :: rest => isNameStart ch && rest.all fun c0 => isNameChar c0) &&
  decide (toLowerL pi.piTarget ≠ "xml".toList)

/-- Modelled from the spec: a legal XML encoding name,
`[A-Za-z][A-Za-z0-9._-]*` (spec section 4.3). -/
def validEncodingName : List Char → Bool
  | [] => false
  | ch :: rest =>
    isAsciiLetter ch &&
    rest.all fun c0 => isAsciiLetter c0 || isAsciiDigit c0 || c0 = '.' ||
      c0 = '_' || c0 = '-'

/-- Parse a `standalone` pseudo-attribute value (`yes`/`no`). -/
def standaloneOf (v : List Char) : Option Standalone :=
  if v = "yes".toList then some .yes
  else if v = "no".toList then some .no
  else none

/-- Modelled from the spec: build a valid `XmlDeclaration` from the parsed
pseudo-attribute pairs.  `version` is required, first, and equal to `1.0`;
`encoding` and `standalone` are optional, in the XML 1.0 order mandated by
the spec (sections 4.3 and 9); `none` stands for an invalid declaration,
which the reader turns into an error. -/
def xmlDeclFromAttrs : List (List Char × List Char) → Option XmlDeclaration
  | [] => none
  | (n1, v1) :: rest =>
    if n1 = "version".toList ∧ v1 = "1.0".toList then
      match rest with
      | [] => some ⟨v1, none, .unset⟩
      | (n2, v2) :: rest2 =>
        if n2 = "encoding".toList ∧ validEncodingName v2 = true then
          match rest2 with
          | [] => some ⟨v1, some v2, .unset⟩
          | (n3, v3) :: rest3 =>
            if n3 = "standalone".toList ∧ rest3 = [] then
              match standaloneOf v3 with
              | some sa => some ⟨v1, some v2, sa⟩
              | none => none
            else none
        else if n2 = "standalone".toList ∧ rest2 = [] then
          match standaloneOf v2 with
          | some sa => some ⟨v1, none, sa⟩
          | none => none
        else none
    else none

/-- `XmlReader::DocumentState`: the document phases appearing in
`src/unnamed/part_000` (`PrologWaitForXmlDeclaration`,
`PrologWaitForDocumentType`, `Element`). -/
inductive DocumentState where
  | prologWaitForXmlDeclaration
  | prologWaitForDocumentType
  | element
deriving DecidableEq

/-- `XmlReader::ParsingState` from `src/unnamed/part_000`. -/
inductive ParsingState where
  | idle
  | readingTokenType
  | readingProcessingInstruction
  | readingDocumentType
  | readingComment
  | readingCData
  | readingStartOfElement
  | readingEndOfElement
  | processingInstructionRead
  | xmlDeclarationRead
  | error
deriving DecidableEq

/-- `XmlReader::ParsingResult` from `src/unnamed/part_000`. -/
inductive ParsingResult where
  | none
  | needMoreData
  | xmlDeclaration
  | processingInstruction
  | error
deriving DecidableEq

/-- The reader state: document phase, parsing state, last result, the
current token-type parser's ignore-leading-whitespace option, the unconsumed
buffer content (from the most recent erase point), and the stored tokens. -/
structure XmlReader where
  documentState : DocumentState
  parsingState : ParsingState
  lastParsingResult : ParsingResult
  tokenOption : Bool
  buffer : List Char
  xmlDeclaration : XmlDeclaration
  processingInstruction : ProcessingInstruction
deriving DecidableEq

/-- `XmlReader::startNewDocument`: reset phase, state, last result and the
stored tokens; the parsing buffer is erased to the current position (the
unconsumed content is modelled as kept). -/
def startNewDocument (st : XmlReader) : XmlReader :=
  { documentState := .prologWaitForXmlDeclaration
    parsingState := .idle
    lastParsingResult := .none
    tokenOption := false
    buffer := st.buffer
    xmlDeclaration := emptyXmlDeclaration
    processingInstruction := emptyProcessingInstruction }

/-- `XmlReader::clear`: clear the parsing buffer and start a new document. -/
def clear (st : XmlReader) : XmlReader :=
  startNewDocument { st with buffer := [] }

/-- A freshly constructed reader (`XmlReader::XmlReader` calls `clear`). -/
def initialReader : XmlReader :=
  clear ⟨.prologWaitForXmlDeclaration, .idle, .none, false, [],
         emptyXmlDeclaration, emptyProcessingInstruction⟩

/-- `XmlReader::writeData`: append data to the parsing buffer.  The model's
buffer is unbounded, so the number of characters written (the C++ return
value) is always the full length of `data`. -/
def writeData (st : XmlReader) (data : List Char) : XmlReader :=
  { st with buffer := st.buffer ++ data }

/-- `if` on the document phase used at every downgrade site of
`src/unnamed/part_000`: a phase still waiting for the XML declaration starts
waiting for the document type instead. -/
def downgradePhase (d : DocumentState) : DocumentState :=
  if d = .prologWaitForXmlDeclaration then .prologWaitForDocumentType else d

/-- The token-type dispatch arms of
`XmlReader::executeParsingStateReadingTokenType` (`src/unnamed/part_000`
lines 326-428): a processing instruction always dispatches; a document type
in the wait-for-XML-declaration phase only downgrades (the C++ leaves
`nextState` at `Error`); a comment downgrades and dispatches; CDATA and
end-of-element require the `Element` phase; start-of-element always
dispatches. -/
def dispatchTokenType (t : TokenType) (rest : List Char) (st : XmlReader) :
    ParsingState × XmlReader :=
  match t with
  | .processingInstruction =>
    (.readingProcessingInstruction, { st with buffer := rest })
  | .documentType =>
    if st.documentState = .prologWaitForXmlDeclaration then
      (.error, { st with documentState := .prologWaitForDocumentType,
                         buffer := rest })
    else if st.documentState = .prologWaitForDocumentType then
      (.readingDocumentType, { st with buffer := rest })
    else (.error, { st with buffer := rest })
  | .comment =>
    (.readingComment,
     { st with documentState := downgradePhase st.documentState,
               buffer := rest })
  | .cData =>
    if st.documentState = .element then
      (.readingCData, { st with buffer := rest })
    else (.error, { st with buffer := rest })
  | .startOfElement =>
    (.readingStartOfElement, { st with buffer := rest })
  | .endOfElement =>
    if st.documentState = .element then
      (.readingEndOfElement, { st with buffer := rest })
    else (.error, { st with buffer := rest })
  | _ => (.error, { st with buffer := rest })

/-- The cycle of `executeParsingStateReadingTokenType` that runs after a
whitespace item: the phase has been downgraded and the parser reconfigured
with `Option_IgnoreLeadingWhitespace`; a second whitespace item cannot
occur, since the whitespace is now skipped — that arm is the loop's
unreachable error arm. -/
def execAfterWhitespace (st1 : XmlReader) : ParsingState × XmlReader :=
  match classifyTok true st1.buffer with
  | .needMoreData => (.readingTokenType, st1)
  | .error => (.error, st1)
  | .found t2 rest2 =>
    match t2 with
    | .whitespace => (.error, st1)
    | _ => dispatchTokenType t2 rest2 st1

/-- `XmlReader::executeParsingStateReadingTokenType`
(`src/unnamed/part_000` lines 278-442): run the token-type parser; on a
whitespace item, downgrade the phase when still waiting for the XML
declaration, reconfigure the parser to ignore leading whitespace and run one
more cycle; otherwise dispatch on the token type found. -/
def executeParsingStateReadingTokenType (st : XmlReader) :
    ParsingState × XmlReader :=
  match classifyTok st.tokenOption st.buffer with
  | .needMoreData => (.readingTokenType, st)
  | .error => (.error, st)
  | .found t rest =>
    match t with
    | .whitespace =>
      execAfterWhitespace
        { st with documentState := downgradePhase st.documentState,
                  tokenOption := true }
    | _ => dispatchTokenType t rest st

/-- `XmlReader::executeParsingStateReadingProcessingInstruction`
(`src/unnamed/part_000` lines 452-574): run the PI parser; a valid generic
PI is stored (downgrading the phase when still waiting for the XML
declaration); an XML declaration is accepted only in the
wait-for-XML-declaration phase, and only when valid. -/
def executeParsingStateReadingProcessingInstruction (st : XmlReader) :
    ParsingState × XmlReader :=
  match piParse st.buffer with
  | .needMoreData => (.readingProcessingInstruction, st)
  | .error => (.error, st)
  | .piRead target data rest =>
    let pi : ProcessingInstruction := ⟨target, data⟩
    if piIsValid pi then
      (.processingInstructionRead,
       { st with documentState := downgradePhase st.documentState,
                 processingInstruction := pi, buffer := rest })
    else
      (.error, { st with processingInstruction := emptyProcessingInstruction })
  | .xmlDeclRead attrs rest =>
    if st.documentState = .prologWaitForXmlDeclaration then
      match xmlDeclFromAttrs attrs with
      | some d =>
        (.xmlDeclarationRead,
         { st with xmlDeclaration := d,
                   documentState := .prologWaitForDocumentType,
                   buffer := rest })
      | Option.none =>
        (.error, { st with xmlDeclaration := emptyXmlDeclaration })
    else (.error, st)

/-- Store the final parsing result (`m_lastParsingResult = result`). -/
def finish (r : ParsingResult) (st : XmlReader) : ParsingResult × XmlReader :=
  (r, { st with lastParsingResult := r })

/-- The transition arms of the `ParsingState_ReadingProcessingInstruction`
case of `XmlReader::parse` (`src/unnamed/part_000` lines 159-194): map the
next state produced by the PI reading step to a parsing result. -/
def parseWrapRPI : ParsingState × XmlReader → ParsingResult × XmlReader
  | (.readingProcessingInstruction, st') =>
    finish .needMoreData
      { st' with parsingState := .readingProcessingInstruction }
  | (.processingInstructionRead, st') =>
    finish .processingInstruction
      { st' with parsingState := .processingInstructionRead }
  | (.xmlDeclarationRead, st') =>
    finish .xmlDeclaration { st' with parsingState := .xmlDeclarationRead }
  | (_, st') => finish .error { st' with parsingState := .error }

/-- The `ParsingState_ReadingProcessingInstruction` arm of `XmlReader::parse`:
run the PI parser and map its next state to the parsing result. -/
def parseFromRPI (st : XmlReader) : ParsingResult × XmlReader :=
  parseWrapRPI (executeParsingStateReadingProcessingInstruction st)

/-- The transition arms of the `ParsingState_ReadingTokenType` case of
`XmlReader::parse` (`src/unnamed/part_000` lines 122-157): a
processing-instruction state runs another cycle; the unimplemented token
states (`ReadingDocumentType`, `ReadingComment`, `ReadingCData`,
`ReadingStartOfElement`, `ReadingEndOfElement` are `TODO` in the source) run
another cycle and fall into the `default` arm, which is an error. -/
def parseWrapRTT : ParsingState × XmlReader → ParsingResult × XmlReader
  | (.readingTokenType, st') =>
    finish .needMoreData { st' with parsingState := .readingTokenType }
  | (.readingProcessingInstruction, st') =>
    parseFromRPI { st' with parsingState := .readingProcessingInstruction }
  | (_, st') => finish .error { st' with parsingState := .error }

/-- The `ParsingState_ReadingTokenType` arm of `XmlReader::parse`: read the
token type and map its next state to the parsing result. -/
def parseFromRTT (st : XmlReader) : ParsingResult × XmlReader :=
  parseWrapRTT (executeParsingStateReadingTokenType st)

/-- `XmlReader::parse` (`src/unnamed/part_000` lines 97-234).  From `Idle`
the phase is reset to wait for the XML declaration and a token-type parser
with no option is created; after a completed token a token-type parser with
`Option_IgnoreLeadingWhitespace` is created; any other entry state (the
unimplemented reading states and the latched `Error`) falls into the
`default` arm and returns `Error`. -/
def parse (st : XmlReader) : ParsingResult × XmlReader :=
  match st.parsingState with
  | .idle =>
    parseFromRTT
      { st with documentState := .prologWaitForXmlDeclaration,
                tokenOption := false, parsingState := .readingTokenType }
  | .readingTokenType => parseFromRTT st
  | .readingProcessingInstruction => parseFromRPI st
  | .processingInstructionRead =>
    parseFromRTT { st with tokenOption := true,
                           parsingState := .readingTokenType }
  | .xmlDeclarationRead =>
    parseFromRTT { st with tokenOption := true,
                           parsingState := .readingTokenType }
  | _ => finish .error { st with parsingState := .error }

/-- `XmlReader::lastParsingResult`, a const getter: the returned value and
the unchanged reader. -/
def lastParsingResultGet (st : XmlReader) : ParsingResult × XmlReader :=
  (st.lastParsingResult, st)

/-- `XmlReader::xmlDeclaration` (`src/unnamed/part_000` lines 251-254), a
const getter: it returns the stored declaration unconditionally and leaves
the reader unchanged. -/
def xmlDeclarationGet (st : XmlReader) : XmlDeclaration × XmlReader :=
  (st.xmlDeclaration, st)

/-- `XmlReader::processingInstruction` (`src/unnamed/part_000` lines
261-264), a const getter: it returns the stored processing instruction
unconditionally and leaves the reader unchanged. -/
def processingInstructionGet (st : XmlReader) :
    ProcessingInstruction × XmlReader :=
  (st.processingInstruction, st)

/-- Is this parsing result a surfaced token (as opposed to the
`NeedMoreData`/`Error` terminations of a parse loop)? -/
def isTokenResult : ParsingResult → Bool
  | .xmlDeclaration => true
  | .processingInstruction => true
  | _ => false

/-- Call `parse` repeatedly, collecting results, until a result that is not
a token (`NeedMoreData` or the terminal `Error`); the terminating result is
recorded last.  Fuel-indexed; every token consumes buffer content, so
`buffer.length + 1` fuel always suffices (see `parseUntilAux_fuel_eq`). -/
def parseUntilAux : Nat → XmlReader → List ParsingResult × XmlReader
  | 0, st => ([], st)
  | fuel + 1, st =>
    match parse st with
    | (r, st') =>
      if isTokenResult r then
        match parseUntilAux fuel st' with
        | (rs, st'') => (r :: rs, st'')
      else ([r], st')

/-- Call `parse` until `NeedMoreData` or a terminal result. -/
def parseLoop (st : XmlReader) : List ParsingResult × XmlReader :=
  parseUntilAux (st.buffer.length + 1) st

/-- Feed a list of chunks one at a time: write each chunk, then call
`parse` until `NeedMoreData` or a terminal result, collecting all results in
order. -/
def feedChunks : List (List Char) → XmlReader → List ParsingResult × XmlReader
  | [], st => ([], st)
  | b :: bs, st =>
    match parseLoop (writeData st b) with
    | (rs, st1) =>
      match feedChunks bs st1 with
      | (rs2, st2) => (rs ++ rs2, st2)

/-- The ordered token stream produced by feeding the given chunks to a fresh
reader. -/
def tokenStream (chunks : List (List Char)) : List ParsingResult :=
  ((feedChunks chunks initialReader).1).filter fun r => isTokenResult r

/-- A caller-visible reader operation other than `clear`: writing data or
calling `parse`. -/
inductive ReaderOp where
  | writeOp (data : List Char)
  | parseOp
deriving DecidableEq

/-- Apply one reader operation. -/
def applyOp (st : XmlReader) : ReaderOp → XmlReader
  | .writeOp d => writeData st d
  | .parseOp => (parse st).2

/-- Apply a sequence of reader operations. -/
def applyOps (ops : List ReaderOp) (st : XmlReader) : XmlReader :=
  ops.foldl applyOp st

end EmbeddedStAX

namespace MiniSaxCpp

/-- `XmlItemParser::Result` from `src/XmlItemParser.h` (lines 51-56). -/
inductive Result where
  | Result_NeedMoreData
  | Result_Success
  | Result_Error
deriving DecidableEq, Fintype

/-- `XmlItemParser::ItemType` from `src/XmlItemParser.h` (lines 65-73): the
complete list of values of the item-type result type in the source. -/
inductive ItemType where
  | ItemType_None
  | ItemType_Whitespace
  | ItemType_ProcessingInstruction
  | ItemType_DocumentType
  | ItemType_Comment
  | ItemType_StartOfElement
deriving DecidableEq, Fintype

/-- `XmlItemParser::Action` from `src/XmlItemParser.h` (lines 75-85). -/
inductive Action where
  | Action_ReadItem
  | Action_ReadName
  | Action_ReadPiValue
  | Action_ReadDocumentTypeValue
  | Action_ReadCommentText
  | Action_ReadElementStartOfContent
  | Action_ReadElementEndEmpty
  | Action_ReadAttributeValue
deriving DecidableEq, Fintype

/-- `XmlWriter::State` from `src/XmlWriter.cpp`. -/
inductive WriterState where
  | State_Empty
  | State_DocumentStarted
  | State_ElementStarted
  | State_InElement
  | State_DocumentEnded
deriving DecidableEq

/-- `Common::QuotationMark` (its header is not under `src/`; the
`addAttribute` switch has a `default` error arm, so the enum holds a value
besides `Quote` and `Apostrophe`). -/
inductive QuotationMark where
  | QuotationMark_None
  | QuotationMark_Quote
  | QuotationMark_Apostrophe
deriving DecidableEq

/-- `Attribute` (`Attribute.h` is not under `src/`): a name and an
unescaped value, per spec section 3. -/
structure Attribute where
  name : List Char
  value : List Char
deriving DecidableEq

/-- `XmlWriter::ElementInfo`: element name and whether its content is still
empty. -/
structure ElementInfo where
  name : List Char
  contentEmpty : Bool
deriving DecidableEq

/-- The default-constructed `ElementInfo()`. -/
def emptyElementInfo : ElementInfo :=
  ⟨[], true⟩

/-- The writer state from `src/XmlWriter.cpp`. -/
structure XmlWriter where
  m_state : WriterState
  m_xmlDeclarationSet : Bool
  m_documentType : List Char
  m_openedElementList : List ElementInfo
  m_currentElementInfo : ElementInfo
  m_attributeNameList : List (List Char)
  m_xmlString : List Char
deriving DecidableEq

/-- Modelled from the spec: `XmlValidator::validateNameString` (not under
`src/`): a non-empty XML Name per the NameStart/NameChar classes (spec
sections 6 and 8). -/
def validateNameString : List Char → Bool
  | [] => false
  | ch :: rest => isNameStart ch && rest.all fun c0 => isNameChar c0

/-- Does `pat` occur as a contiguous run inside `s`? -/
def hasSub (pat : List Char) : List Char → Bool
  | [] => decide (pat = [])
  | ch :: rest =>
    (match EmbeddedStAX.matchLit pat (ch :: rest) with
     | .litMatched _ => true
     | _ => false) || hasSub pat rest

/-- Modelled from the spec: `XmlValidator::validateCommentString` (not under
`src/`): comment text must not contain `--` (spec sections 4.2 and 8). -/
def validateCommentString (s : List Char) : Bool :=
  !(hasSub ('-' :: ['-']) s)

/-- Modelled from the spec: `XmlValidator::validatePiTargetString` (not
under `src/`): a legal XML Name whose lowercased form is not `xml` (spec
section 3). -/
def validatePiTargetString (s : List Char) : Bool :=
  validateNameString s && decide (toLowerL s ≠ "xml".toList)

/-- Modelled from the spec: `XmlValidator::validatePiValueString` (not under
`src/`): PI data runs until `?>`, so it must not contain it. -/
def validatePiValueString (s : List Char) : Bool :=
  !(hasSub ('?' :: ['>']) s)

/-- Modelled from the spec: `XmlValidator::validateTextNodeString` (not
under `src/`): raw markup characters `<` and `&` are not allowed in an
unescaped text node. -/
def validateTextNodeString (s : List Char) : Bool :=
  s.all fun ch => ch ≠ '<' && ch ≠ '&'

/-- Modelled from the spec: `XmlValidator::validateAttValueString` (not
under `src/`): an attribute value may not contain a raw `<` (the predefined
entities and character references stand for the escaped characters). -/
def validateAttValueString (s : List Char) : Bool :=
  s.all fun ch => ch ≠ '<'

/-- Modelled from the spec: `Common::escapeSpecialCharacter` (not under
`src/`): the predefined-entity escape of a special character (spec
section 6). -/
def escapeSpecialCharacter (ch : Char) : List Char :=
  if ch = '<' then "&lt;".toList
  else if ch = '>' then "&gt;".toList
  else if ch = '&' then "&amp;".toList
  else if ch = '"' then "&quot;".toList
  else if ch = '\'' then "&apos;".toList
  else []

/-- One character of `XmlWriter::escapeAttValue` (the `switch` at
`src/XmlWriter.cpp` lines 560-630).  The two "no need to escape" branches
(lines 567-578, a quote under an apostrophe quotation mark and an apostrophe
under a quote quotation mark) are empty: they leave `success = false`, which
aborts the do-while — that is the `none` outcome here.  The remaining
special characters append `Common::escapeSpecialCharacter` when it is
non-empty (line 585), also leaving `success = false` otherwise; the
`default` arm copies the character. -/
def escapeAttValueChar (quotationMark : QuotationMark) (ch : Char) :
    Option (List Char) :=
  if ch = '<' ∨ ch = '&' ∨ ch = '"' ∨ ch = '\'' then
    if ch = '"' ∧ quotationMark = .QuotationMark_Apostrophe then none
    else if ch = '\'' ∧ quotationMark = .QuotationMark_Quote then none
    else if escapeSpecialCharacter ch ≠ [] then
      some (escapeSpecialCharacter ch)
    else none
  else some [ch]

/-- The do-while of `XmlWriter::escapeAttValue` (`src/XmlWriter.cpp` lines
547-638) over the code points of the value: each character's escape is
appended in turn, and a character that leaves `success = false` aborts the
whole walk. -/
def escapeAttValueGo (quotationMark : QuotationMark) :
    List Char → Option (List Char)
  | [] => some []
  | ch :: rest =>
    match escapeAttValueChar quotationMark ch with
    | some e =>
      match escapeAttValueGo quotationMark rest with
      | some s => some (e ++ s)
      | Option.none => Option.none
    | Option.none => Option.none

/-- `XmlWriter::escapeAttValue` (`src/XmlWriter.cpp` lines 532-659).  The
C++ walks the UTF-8 string with a lazily-copied prefix; on success its net
effect on the code-point sequence is the concatenation of the per-character
escapes (for an empty value the loop is skipped and the empty string is
returned), and when the walk aborts the result is cleared to the empty
string (lines 648-655), the error return. -/
def escapeAttValue (unescapedAttValue : List Char)
    (quotationMark : QuotationMark) : List Char :=
  match escapeAttValueGo quotationMark unescapedAttValue with
  | some s => s
  | Option.none => []

/-- `XmlWriter::clearDocument` (`src/XmlWriter.cpp` lines 45-54).  The line
`m_documentType;` in the source is an expression statement with no effect,
so the document type is *not* cleared; the model reproduces that. -/
def clearDocument (w : XmlWriter) : XmlWriter :=
  { m_state := .State_Empty
    m_xmlDeclarationSet := false
    m_documentType := w.m_documentType
    m_openedElementList := []
    m_currentElementInfo := emptyElementInfo
    m_attributeNameList := []
    m_xmlString := [] }

/-- A freshly constructed writer (`XmlWriter::XmlWriter` calls
`clearDocument` on members that are default-initialised). -/
def initialWriter : XmlWriter :=
  clearDocument ⟨.State_Empty, false, [], [], emptyElementInfo, [], []⟩

/-- `XmlWriter::getXmlString` (`src/XmlWriter.cpp` lines 65-75), a const
method: the XML string is returned only when the document has been fully
completed (`State_DocumentEnded`), otherwise an empty string; the writer is
unchanged. -/
def getXmlString (w : XmlWriter) : List Char × XmlWriter :=
  (if w.m_state = .State_DocumentEnded then w.m_xmlString else [], w)

/-- Closing the start tag of the current element (the `closeStartTag` arm
shared by `addComment`, `addProcessingInstruction`, `startElement` and
`addTextNode`). -/
def closeStartTag (w : XmlWriter) : XmlWriter :=
  { w with m_xmlString := w.m_xmlString ++ ">".toList,
           m_currentElementInfo :=
             { w.m_currentElementInfo with contentEmpty := false },
           m_attributeNameList := [] }

/-- `XmlWriter::setXmlDeclaration` (`src/XmlWriter.cpp` lines 86-101): only
in the empty state; the XML string is *assigned* the fixed declaration. -/
def setXmlDeclaration (w : XmlWriter) : Bool × XmlWriter :=
  if w.m_state = .State_Empty then
    (true,
     { w with
         m_xmlString := ("<?xml version=\"1.0\" encoding=\"UTF-8\"?>").toList,
         m_xmlDeclarationSet := true,
         m_state := .State_DocumentStarted })
  else (false, w)

/-- `XmlWriter::setDocumentType` (`src/XmlWriter.cpp` lines 114-136). -/
def setDocumentType (w : XmlWriter) (documentType : List Char) :
    Bool × XmlWriter :=
  if w.m_documentType = [] ∧
     (w.m_state = .State_Empty ∨ w.m_state = .State_DocumentStarted) ∧
     validateNameString documentType = true then
    (true,
     { w with
         m_xmlString :=
           w.m_xmlString ++ "<!DOCTYPE ".toList ++ documentType ++ ">".toList,
         m_documentType := documentType,
         m_state := .State_DocumentStarted })
  else (false, w)

/-- `XmlWriter::addComment` (`src/XmlWriter.cpp` lines 146-201). -/
def addComment (w : XmlWriter) (commentText : List Char) : Bool × XmlWriter :=
  if validateCommentString commentText = true then
    let app : XmlWriter → WriterState → XmlWriter := fun w0 next =>
      { w0 with m_xmlString := w0.m_xmlString ++ "<!--".toList ++
          commentText ++ "-->".toList, m_state := next }
    match w.m_state with
    | .State_Empty => (true, app w .State_DocumentStarted)
    | .State_ElementStarted => (true, app (closeStartTag w) .State_InElement)
    | s => (true, app w s)
  else (false, w)

/-- `XmlWriter::addProcessingInstruction` (`src/XmlWriter.cpp` lines
212-277).  The source computes a `nextState` but then assigns
`m_state = State_ElementStarted` unconditionally on success; the model
reproduces that assignment. -/
def addProcessingInstruction (w : XmlWriter) (piTarget piValue : List Char) :
    Bool × XmlWriter :=
  if validatePiTargetString piTarget = true ∧
     validatePiValueString piValue = true then
    let w1 := if w.m_state = .State_ElementStarted then closeStartTag w else w
    let dataPart : List Char := if piValue = [] then [] else
      " ".toList ++ piValue
    (true,
     { w1 with m_xmlString := w1.m_xmlString ++ "<?".toList ++ piTarget ++
         dataPart ++ "?>".toList, m_state := .State_ElementStarted })
  else (false, w)

/-- `XmlWriter::startElement` (`src/XmlWriter.cpp` lines 287-364). -/
def startElement (w : XmlWriter) (elementName : List Char) :
    Bool × XmlWriter :=
  if validateNameString elementName = true then
    let ok : Bool :=
      match w.m_state with
      | .State_DocumentStarted =>
        w.m_documentType = [] || elementName = w.m_documentType
      | .State_Empty => true
      | .State_InElement => true
      | .State_ElementStarted => true
      | .State_DocumentEnded => false
    if ok then
      let w1 := if w.m_state = .State_ElementStarted then closeStartTag w
        else w
      let w2 := if w1.m_currentElementInfo.name ≠ [] then
          { w1 with m_openedElementList :=
              w1.m_openedElementList ++ [w1.m_currentElementInfo] }
        else w1
      (true,
       { w2 with
           m_xmlString := w2.m_xmlString ++ "<".toList ++ elementName,
           m_currentElementInfo := ⟨elementName, true⟩,
           m_state := .State_ElementStarted })
    else (false, w)
  else (false, w)

/-- The quotation-mark character chosen by the `addAttribute` switch
(`QuotationMark_None` falls into the `default` error arm and never reaches
the append; its value here is immaterial). -/
def quoteChar : QuotationMark → Char
  | .QuotationMark_Quote => '"'
  | .QuotationMark_Apostrophe => '\''
  | .QuotationMark_None => '"'

/-- `XmlWriter::addAttribute` (`src/XmlWriter.cpp` lines 375-448): only when
an element start tag is open, with a valid attribute name not already added
to this start tag, a successfully escaped and valid value, and a quote or
apostrophe quotation mark; on success ` name="escaped-value"` is appended
and the name recorded; on failure nothing changes. -/
def addAttribute (w : XmlWriter) (attr : Attribute)
    (quotationMark : QuotationMark) : Bool × XmlWriter :=
  if w.m_state = .State_ElementStarted then
    if validateNameString attr.name = true then
      if w.m_attributeNameList.contains attr.name then (false, w)
      else
        let escapedAttrValue := escapeAttValue attr.value quotationMark
        if (escapedAttrValue = [] ∧ attr.value = []) ∨
           (escapedAttrValue ≠ [] ∧ attr.value ≠ []) then
          if validateAttValueString escapedAttrValue = true then
            match quotationMark with
            | .QuotationMark_None => (false, w)
            | q =>
              (true,
               { w with
                   m_attributeNameList :=
                     w.m_attributeNameList ++ [attr.name],
                   m_xmlString :=
                     w.m_xmlString ++ " ".toList ++ attr.name ++
                       "=".toList ++ [quoteChar q] ++ escapedAttrValue ++
                       [quoteChar q] })
          else (false, w)
        else (false, w)
    else (false, w)
  else (false, w)

/-- `XmlWriter::addTextNode` (`src/XmlWriter.cpp` lines 458-505).  The
source assigns `m_state = State_ElementStarted` on success; the model
reproduces that assignment. -/
def addTextNode (w : XmlWriter) (textNode : List Char) : Bool × XmlWriter :=
  if validateTextNodeString textNode = true then
    match w.m_state with
    | .State_InElement =>
      (true, { w with m_xmlString := w.m_xmlString ++ textNode,
                      m_state := .State_ElementStarted })
    | .State_ElementStarted =>
      let w1 := closeStartTag w
      (true, { w1 with m_xmlString := w1.m_xmlString ++ textNode,
                       m_state := .State_ElementStarted })
    | _ => (false, w)
  else (false, w)

/-- A writer operation; `endElement` is an empty stub in the source
(`src/XmlWriter.cpp` lines 510-513) and is therefore not modelled. -/
inductive WriterOp where
  | setXmlDeclarationOp
  | setDocumentTypeOp (documentType : List Char)
  | addCommentOp (commentText : List Char)
  | addProcessingInstructionOp (piTarget piValue : List Char)
  | startElementOp (elementName : List Char)
  | addAttributeOp (attr : Attribute) (quotationMark : QuotationMark)
  | addTextNodeOp (textNode : List Char)
  | clearDocumentOp
deriving DecidableEq

/-- Apply one writer operation (discarding the boolean result). -/
def applyWriterOp (w : XmlWriter) : WriterOp → XmlWriter
  | .setXmlDeclarationOp => (setXmlDeclaration w).2
  | .setDocumentTypeOp dt => (setDocumentType w dt).2
  | .addCommentOp c0 => (addComment w c0).2
  | .addProcessingInstructionOp t v => (addProcessingInstruction w t v).2
  | .startElementOp n => (startElement w n).2
  | .addAttributeOp a q => (addAttribute w a q).2
  | .addTextNodeOp t => (addTextNode w t).2
  | .clearDocumentOp => clearDocument w

/-- The writer reached by a sequence of operations on a fresh writer. -/
def runWriter (ops : List WriterOp) : XmlWriter :=
  ops.foldl applyWriterOp initialWriter

end MiniSaxCpp

open MiniSaxCpp in
/-- C9: after every sequence of writer operations, `XmlWriter::getXmlString`
returns the accumulated XML text exactly when the writer's state is
`State_DocumentEnded`, returns the empty string in every other state, and —
being a const method — never modifies the writer's state. -/
theorem C9_getXmlString_iff_documentEnded (ops : List WriterOp) :
    (getXmlString (runWriter ops)).2 = runWriter ops ∧
    ((runWriter ops).m_state = .State_DocumentEnded →
      (getXmlString (runWriter ops)).1 = (runWriter ops).m_xmlString) ∧
    ((runWriter ops).m_state ≠ .State_DocumentEnded →
      (getXmlString (runWriter ops)).1 = []) := by
  refine ⟨rfl, ?_, ?_⟩ <;> intro h <;> simp [getXmlString, h]

open MiniSaxCpp in
/-- C9 witness: after starting an element the writer is not in
`State_DocumentEnded`, and `getXmlString` returns the empty string. -/
theorem C9_getXmlString_witness :
    (runWriter [.startElementOp ("r".toList)]).m_state ≠
      WriterState.State_DocumentEnded ∧
    (getXmlString (runWriter [.startElementOp ("r".toList)])).1 = [] :=
  ⟨by decide,
   (C9_getXmlString_iff_documentEnded [.startElementOp ("r".toList)]).2.2
     (by decide)⟩

open MiniSaxCpp in
/-- C10: `XmlWriter::addAttribute` succeeds only when an element start tag is
currently open (`State_ElementStarted`), the attribute name is a valid XML
Name not already added to this start tag, and the quotation mark is a quote
or an apostrophe; on success it appends ` name="escaped-value"` to the XML
string (and never changes the state); on every failing call it returns
`false` and leaves the writer — XML string and state included — unchanged. -/
theorem C10_addAttribute_contract (w : XmlWriter) (a : Attribute)
    (q : QuotationMark) :
    ((addAttribute w a q).1 = true →
      w.m_state = .State_ElementStarted ∧
      validateNameString a.name = true ∧
      w.m_attributeNameList.contains a.name = false ∧
      (q = .QuotationMark_Quote ∨ q = .QuotationMark_Apostrophe) ∧
      ((addAttribute w a q).2).m_xmlString =
        w.m_xmlString ++ " ".toList ++ a.name ++ "=".toList ++
          [quoteChar q] ++ escapeAttValue a.value q ++ [quoteChar q] ∧
      ((addAttribute w a q).2).m_state = w.m_state) ∧
    ((addAttribute w a q).1 = false → (addAttribute w a q).2 = w) := by
  cases q <;>
    simp only [addAttribute] <;>
    split_ifs <;>
    simp_all

open MiniSaxCpp in
/-- C10 witness: on a writer with an open start tag, adding the attribute
`a="v"` appends ` a="v"`; on a fresh writer (no open start tag) the call
fails and leaves the writer unchanged. -/
theorem C10_addAttribute_witness :
    ((addAttribute (startElement initialWriter ("r".toList)).2
        ⟨"a".toList, "v".toList⟩ .QuotationMark_Quote).2).m_xmlString =
      (startElement initialWriter ("r".toList)).2.m_xmlString ++
        " ".toList ++ "a".toList ++ "=".toList ++
        [quoteChar .QuotationMark_Quote] ++
        escapeAttValue ("v".toList) .QuotationMark_Quote ++
        [quoteChar .QuotationMark_Quote] ∧
    (addAttribute initialWriter ⟨"a".toList, "v".toList⟩
        .QuotationMark_Quote).2 = initialWriter :=
  ⟨(((C10_addAttribute_contract (startElement initialWriter ("r".toList)).2
        ⟨"a".toList, "v".toList⟩ .QuotationMark_Quote).1
      (by decide)).2.2.2.2).1,
   (C10_addAttribute_contract initialWriter ⟨"a".toList, "v".toList⟩
       .QuotationMark_Quote).2 (by decide)⟩

open EmbeddedStAX in
/-- C5: writing
`<?xml version='1.0' encoding='UTF-8' standalone='yes' ?><?pitarget   pidata   ?>`
to a fresh reader and calling `parse` three times yields, in order: an
`XmlDeclaration` with version `1.0`, encoding `UTF-8`, standalone `yes`;
a `ProcessingInstruction` with target `pitarget` and data `pidata`;
then `NeedMoreData`. -/
theorem C5_xmlDecl_pi_scenario :
    (let st0 := writeData initialReader
      (("<?xml version='1.0' encoding='UTF-8' standalone='yes' ?>" ++
        "<?pitarget   pidata   ?>").toList)
     let p1 := parse st0
     let p2 := parse p1.2
     let p3 := parse p2.2
     p1.1 = .xmlDeclaration ∧
     p1.2.xmlDeclaration = ⟨"1.0".toList, some ("UTF-8".toList), .yes⟩ ∧
     p2.1 = .processingInstruction ∧
     p2.2.processingInstruction = ⟨"pitarget".toList, "pidata".toList⟩ ∧
     p3.1 = .needMoreData) := by
  decide

open EmbeddedStAX in
/-- C3: on the input `<root/><?xml version='1.0'?>` the reader classifies a
start-of-element token, but the very first `parse` call returns `Error`
rather than surfacing `StartElement{name="root", empty=true}`: the
start-of-element token parser is an unimplemented `TODO` in the source, so
`ParsingState_ReadingStartOfElement` falls into the `default` arm of
`XmlReader::parse`. -/
theorem C3_startElement_unimplemented_eval :
    classifyTok false (("<root/><?xml version='1.0'?>").toList) =
      .found .startOfElement (("root/><?xml version='1.0'?>").toList) ∧
    (parse (writeData initialReader
        (("<root/><?xml version='1.0'?>").toList))).1 =
      ParsingResult.error ∧
    ((parse (writeData initialReader
        (("<root/><?xml version='1.0'?>").toList))).2).parsingState =
      ParsingState.error := by
  decide

open EmbeddedStAX in
/-- C8 counterexample: after parsing the generic processing instruction
`<?a b?>` the last parsing result is `ProcessingInstruction`, yet calling the
mismatched XML-declaration getter simply returns the stored (cleared)
declaration together with the unchanged reader — no `ContractError` is
reported (the getter has no error outcome at all) and nothing latches. -/
theorem C8_no_contractError_counterexample :
    (lastParsingResultGet
        (parse (writeData initialReader ("<?a b?>".toList))).2).1 =
      ParsingResult.processingInstruction ∧
    xmlDeclarationGet ((parse (writeData initialReader ("<?a b?>".toList))).2) =
      (emptyXmlDeclaration,
       (parse (writeData initialReader ("<?a b?>".toList))).2) := by
  decide

open EmbeddedStAX in
/-- C8 (amended): the typed getters of `XmlReader` perform no contract
check: even when the last parsing result does not match the requested token
kind, the getter returns the currently stored token value and leaves the
reader — its parsing state included — completely unchanged; no error of any
kind is reported and the reader is not latched. -/
theorem C8_typed_getters_no_contract_check (st : XmlReader)
    (_hx : st.lastParsingResult ≠ ParsingResult.xmlDeclaration)
    (_hp : st.lastParsingResult ≠ ParsingResult.processingInstruction) :
    xmlDeclarationGet st = (st.xmlDeclaration, st) ∧
    processingInstructionGet st = (st.processingInstruction, st) ∧
    ((xmlDeclarationGet st).2).parsingState = st.parsingState ∧
    ((processingInstructionGet st).2).parsingState = st.parsingState :=
  ⟨rfl, rfl, rfl, rfl⟩

open EmbeddedStAX in
/-- C8 witness: the fresh reader's last result matches no token kind, and
both mismatched getter calls return the stored values with the reader
unchanged. -/
theorem C8_typed_getters_witness :
    initialReader.lastParsingResult ≠ ParsingResult.xmlDeclaration ∧
    initialReader.lastParsingResult ≠ ParsingResult.processingInstruction ∧
    xmlDeclarationGet initialReader =
      (initialReader.xmlDeclaration, initialReader) :=
  ⟨by decide, by decide,
   (C8_typed_getters_no_contract_check initialReader (by decide)
      (by decide)).1⟩

namespace EmbeddedStAX

/-- Dropping a predicate-satisfying prefix: `dropWhile` over `ws ++ l` when
every element of `ws` satisfies the predicate. -/
theorem dropWhile_all_append (p : Char → Bool) (ws l : List Char)
    (h : ws.all p = true) :
    (ws ++ l).dropWhile p = l.dropWhile p := by
  induction ws with
  | nil => rfl
  | cons ch tl ih =>
    simp only [List.all_cons, Bool.and_eq_true] at h
    simp [List.dropWhile_cons, h.1, ih h.2]

/-- `dropWhile` keeps a list whose head falsifies the predicate. -/
theorem dropWhile_cons_of_neg (p : Char → Bool) (ch : Char) (l : List Char)
    (h : p ch = false) :
    (ch :: l).dropWhile p = ch :: l := by
  simp [List.dropWhile_cons, h]

/-- Matching a literal against itself followed by anything succeeds and
leaves exactly the continuation. -/
theorem matchLit_self_append (l s : List Char) :
    matchLit l (l ++ s) = .litMatched s := by
  induction l with
  | nil => rfl
  | cons ch tl ih => simp [matchLit, ih]

end EmbeddedStAX

open MiniSaxCpp in
/-- C7 counterexample: the item-type result type `XmlItemParser::ItemType`
declared in `src/XmlItemParser.h` (lines 65-73) consists of exactly the six
values `ItemType_None`, `ItemType_Whitespace`,
`ItemType_ProcessingInstruction`, `ItemType_DocumentType`,
`ItemType_Comment` and `ItemType_StartOfElement` — it cannot take a `CData`
or an `EndOfElement` value, so the Item Parser's `ReadItem` action cannot
classify an item as either. -/
theorem C7_itemType_has_no_cdata_value :
    (Finset.univ : Finset ItemType) =
      {ItemType.ItemType_None, ItemType.ItemType_Whitespace,
       ItemType.ItemType_ProcessingInstruction,
       ItemType.ItemType_DocumentType, ItemType.ItemType_Comment,
       ItemType.ItemType_StartOfElement} := by
  decide

open EmbeddedStAX in
/-- C7 (amended): the reader-generation token-type classifier (the
`TokenTypeParser` dispatched on by `XmlReader` in `src/unnamed/part_000`,
whose token-type enumeration does include `CData` and `EndOfElement`)
classifies every input whose next non-whitespace code points begin with
`<![CDATA[` as `CData`, and every input beginning with `</` as
`EndOfElement`; the `ItemType` enumeration of `src/XmlItemParser.h` itself
has no such values. -/
theorem C7_classifier_cdata_endOfElement (ws s : List Char)
    (hws : ws.all isXmlWhitespace = true) :
    classifyTok true (ws ++ ("<![CDATA[".toList ++ s)) = .found .cData s ∧
    classifyTok true (ws ++ ("</".toList ++ s)) = .found .endOfElement s := by
  have hlt : isXmlWhitespace '<' = false := by decide
  constructor
  · have hcd : "<![CDATA[".toList ++ s =
        '<' :: '!' :: '[' :: ('C' :: 'D' :: 'A' :: 'T' :: 'A' :: '[' :: s) := rfl
    have hm : matchLit ['C','D','A','T','A','[']
        ('C' :: 'D' :: 'A' :: 'T' :: 'A' :: '[' :: s) = LitStep.litMatched s :=
      matchLit_self_append ['C','D','A','T','A','['] s
    rw [hcd, classifyTok, if_pos rfl,
      dropWhile_all_append isXmlWhitespace ws _ hws,
      dropWhile_cons_of_neg isXmlWhitespace '<'
        ('!' :: '[' :: ('C' :: 'D' :: 'A' :: 'T' :: 'A' :: '[' :: s)) hlt]
    simp [classifyCore, classifyLt, classifyBang, classifyCdata, hlt, hm]
  · have hee : "</".toList ++ s = '<' :: '/' :: s := rfl
    rw [hee, classifyTok, if_pos rfl,
      dropWhile_all_append isXmlWhitespace ws _ hws,
      dropWhile_cons_of_neg isXmlWhitespace '<' ('/' :: s) hlt]
    simp [classifyCore, classifyLt, hlt]

open EmbeddedStAX in
/-- C7 witness: with a one-space whitespace prefix, `<![CDATA[x]]>` is
classified as `CData` and `</r>` as `EndOfElement`. -/
theorem C7_classifier_witness :
    (" ".toList).all isXmlWhitespace = true ∧
    classifyTok true ((" ".toList) ++ ("<![CDATA[".toList ++ "x]]>".toList)) =
      .found .cData ("x]]>".toList) ∧
    classifyTok true ((" ".toList) ++ ("</".toList ++ "r>".toList)) =
      .found .endOfElement ("r>".toList) :=
  ⟨by decide,
   (C7_classifier_cdata_endOfElement (" ".toList) ("x]]>".toList)
      (by decide)).1,
   (C7_classifier_cdata_endOfElement (" ".toList) ("r>".toList)
      (by decide)).2⟩

namespace EmbeddedStAX

/-- The processing-instruction arm of `parse` returns `Error` exactly when
it leaves the reader in the `Error` parsing state. -/
theorem parseFromRPI_error_iff (st : XmlReader) :
    (parseFromRPI st).1 = .error ↔
      ((parseFromRPI st).2).parsingState = .error := by
  rw [parseFromRPI]
  rcases hex : executeParsingStateReadingProcessingInstruction st
    with ⟨ps, st'⟩
  cases ps <;> simp [parseWrapRPI, finish]

/-- The token-type arm of `parse` returns `Error` exactly when it leaves the
reader in the `Error` parsing state. -/
theorem parseFromRTT_error_iff (st : XmlReader) :
    (parseFromRTT st).1 = .error ↔
      ((parseFromRTT st).2).parsingState = .error := by
  rw [parseFromRTT]
  rcases hex : executeParsingStateReadingTokenType st with ⟨ps, st'⟩
  cases ps <;> simp [parseWrapRTT, finish, parseFromRPI_error_iff]

/-- `parse` returns `Error` exactly when it leaves the reader in the
`Error` parsing state. -/
theorem parse_error_iff (st : XmlReader) :
    (parse st).1 = .error ↔ ((parse st).2).parsingState = .error := by
  cases hps : st.parsingState <;>
    simp [parse, hps, parseFromRTT_error_iff, parseFromRPI_error_iff, finish]

/-- A reader latched in the `Error` parsing state: `parse` returns `Error`
and only records it, leaving everything else unchanged. -/
theorem parse_latched (st : XmlReader) (h : st.parsingState = .error) :
    parse st = (.error, { st with parsingState := .error,
                                  lastParsingResult := .error }) := by
  simp [parse, h, finish]

/-- Writing data never changes the parsing state. -/
theorem writeData_parsingState (st : XmlReader) (d : List Char) :
    (writeData st d).parsingState = st.parsingState := rfl

/-- A latched reader stays latched under any sequence of writes and parses. -/
theorem applyOps_latched (ops : List ReaderOp) (st : XmlReader)
    (h : st.parsingState = .error) :
    (applyOps ops st).parsingState = .error := by
  induction ops generalizing st with
  | nil => exact h
  | cons op tl ih =>
    cases op with
    | writeOp d => exact ih (writeData st d) h
    | parseOp =>
      refine ih (parse st).2 ?_
      rw [parse_latched st h]

end EmbeddedStAX

open EmbeddedStAX in
/-- C2: once a call to `parse` returns `Error`, every subsequent call to
`parse` — after any further sequence of writes and parses — also returns
`Error`; `clear` resets the reader to the `Idle` parsing state and the
`PrologWaitForXmlDeclaration` document phase. -/
theorem C2_error_latched_until_clear (st : XmlReader) (ops : List ReaderOp)
    (h : (parse st).1 = ParsingResult.error) :
    (parse (applyOps ops (parse st).2)).1 = ParsingResult.error ∧
    (clear (applyOps ops (parse st).2)).parsingState = ParsingState.idle ∧
    (clear (applyOps ops (parse st).2)).documentState =
      DocumentState.prologWaitForXmlDeclaration := by
  have hlat : ((parse st).2).parsingState = .error := (parse_error_iff st).1 h
  have hops := applyOps_latched ops (parse st).2 hlat
  refine ⟨?_, rfl, rfl⟩
  rw [parse_latched _ hops]

open EmbeddedStAX in
/-- C2 witness: the input `*` makes the first `parse` return `Error`, and
after a further write and parse the reader still returns `Error`; `clear`
resets it. -/
theorem C2_error_latched_witness :
    (parse (writeData initialReader ("*".toList))).1 = ParsingResult.error ∧
    (parse (applyOps [.writeOp ("<?a b?>".toList), .parseOp]
        (parse (writeData initialReader ("*".toList))).2)).1 =
      ParsingResult.error :=
  ⟨by decide,
   (C2_error_latched_until_clear (writeData initialReader ("*".toList))
      [.writeOp ("<?a b?>".toList), .parseOp] (by decide)).1⟩

open EmbeddedStAX in
/-- C6: when the token-type parser classifies a CDATA token, the reader
accepts it and dispatches to the CDATA reading state only while the document
phase is `Element`; in every other phase `parse` returns `Error` (and in the
`Element` phase, too, the subsequent parse cycle errors out, since the CDATA
token parser is an unimplemented `TODO`). -/
theorem C6_cdata_only_inside_element (st : XmlReader) (rest : List Char)
    (h1 : st.parsingState = ParsingState.readingTokenType)
    (h2 : classifyTok st.tokenOption st.buffer = .found .cData rest) :
    (executeParsingStateReadingTokenType st).1 =
      (if st.documentState = .element then ParsingState.readingCData
       else ParsingState.error) ∧
    (st.documentState ≠ .element →
      (parse st).1 = ParsingResult.error ∧
      ((parse st).2).parsingState = ParsingState.error) := by
  have hex : executeParsingStateReadingTokenType st =
      dispatchTokenType .cData rest st := by
    rw [executeParsingStateReadingTokenType, h2]
  constructor
  · rw [hex]
    by_cases he : st.documentState = .element <;>
      simp [dispatchTokenType, he]
  · intro hne
    have hd : executeParsingStateReadingTokenType st =
        (ParsingState.error, { st with buffer := rest }) := by
      rw [hex]
      simp [dispatchTokenType, hne]
    simp [parse, h1, parseFromRTT, parseWrapRTT, hd, finish]

open EmbeddedStAX in
/-- C6 witness: with the buffer `<![CDATA[x`, a reader in the `Element`
phase dispatches to `ReadingCData`, while one still in the prolog (document
type) phase returns `Error` from `parse`. -/
theorem C6_cdata_witness :
    (executeParsingStateReadingTokenType
        ⟨.element, .readingTokenType, .none, false, "<![CDATA[x".toList,
         emptyXmlDeclaration, emptyProcessingInstruction⟩).1 =
      ParsingState.readingCData ∧
    (parse
        ⟨.prologWaitForDocumentType, .readingTokenType, .none, false,
         "<![CDATA[x".toList, emptyXmlDeclaration,
         emptyProcessingInstruction⟩).1 = ParsingResult.error := by
  have hElem := C6_cdata_only_inside_element
    ⟨.element, .readingTokenType, .none, false, "<![CDATA[x".toList,
     emptyXmlDeclaration, emptyProcessingInstruction⟩ ("x".toList)
    (by decide) (by decide)
  have hProlog := C6_cdata_only_inside_element
    ⟨.prologWaitForDocumentType, .readingTokenType, .none, false,
     "<![CDATA[x".toList, emptyXmlDeclaration, emptyProcessingInstruction⟩
    ("x".toList) (by decide) (by decide)
  exact ⟨by rw [hElem.1]; decide, (hProlog.2 (by decide)).1⟩

namespace EmbeddedStAX

/-- Downgrading is idempotent. -/
theorem downgradePhase_idem (d : DocumentState) :
    downgradePhase (downgradePhase d) = downgradePhase d := by
  cases d <;> rfl

/-- The token-type dispatch either keeps the document phase or downgrades
it. -/
theorem dispatch_phase_cases (t : TokenType) (rest : List Char)
    (st : XmlReader) :
    ((dispatchTokenType t rest st).2).documentState = st.documentState ∨
    ((dispatchTokenType t rest st).2).documentState =
      downgradePhase st.documentState := by
  cases t with
  | whitespace => exact Or.inl rfl
  | processingInstruction => exact Or.inl rfl
  | documentType =>
    by_cases h1 : st.documentState = .prologWaitForXmlDeclaration
    · right
      simp [dispatchTokenType, h1, downgradePhase]
    · by_cases h2 : st.documentState = .prologWaitForDocumentType <;>
        left <;> simp [dispatchTokenType, h1, h2]
  | comment => right; simp [dispatchTokenType]
  | cData =>
    by_cases h : st.documentState = .element <;> left <;>
      simp [dispatchTokenType, h]
  | startOfElement => exact Or.inl rfl
  | endOfElement =>
    by_cases h : st.documentState = .element <;> left <;>
      simp [dispatchTokenType, h]
  | xmlDeclaration => exact Or.inl rfl

/-- The post-whitespace cycle either keeps the document phase or downgrades
it. -/
theorem execAfterWhitespace_phase_cases (st1 : XmlReader) :
    ((execAfterWhitespace st1).2).documentState = st1.documentState ∨
    ((execAfterWhitespace st1).2).documentState =
      downgradePhase st1.documentState := by
  rw [execAfterWhitespace]
  rcases h2 : classifyTok true st1.buffer with _ | _ | ⟨t2, rest2⟩
  · exact Or.inl rfl
  · exact Or.inl rfl
  · cases t2
    case whitespace => exact Or.inl rfl
    all_goals exact dispatch_phase_cases _ _ _

/-- The token-type reading step either keeps the document phase or
downgrades it. -/
theorem execRTT_phase_cases (st : XmlReader) :
    ((executeParsingStateReadingTokenType st).2).documentState =
      st.documentState ∨
    ((executeParsingStateReadingTokenType st).2).documentState =
      downgradePhase st.documentState := by
  rw [executeParsingStateReadingTokenType]
  rcases h1 : classifyTok st.tokenOption st.buffer with _ | _ | ⟨t, rest⟩
  · exact Or.inl rfl
  · exact Or.inl rfl
  · cases t
    case whitespace =>
      rcases execAfterWhitespace_phase_cases
          { st with documentState := downgradePhase st.documentState,
                    tokenOption := true } with h | h
      · exact Or.inr h
      · right
        rw [h]
        exact downgradePhase_idem st.documentState
    all_goals exact dispatch_phase_cases _ _ _

/-- The result wrapper of the PI arm never changes the document phase. -/
theorem parseWrapRPI_phase (p : ParsingState × XmlReader) :
    ((parseWrapRPI p).2).documentState = (p.2).documentState := by
  rcases p with ⟨ps, st'⟩
  cases ps <;> simp [parseWrapRPI, finish]

/-- The processing-instruction reading step keeps a document phase that has
already moved past the XML declaration. -/
theorem execRPI_phase_doc (st : XmlReader)
    (h : st.documentState = .prologWaitForDocumentType) :
    ((executeParsingStateReadingProcessingInstruction st).2).documentState =
      .prologWaitForDocumentType := by
  rw [executeParsingStateReadingProcessingInstruction]
  rcases hpi : piParse st.buffer with _ | _ | ⟨tg, dt, rest⟩ | ⟨attrs, rest⟩
  · exact h
  · exact h
  · by_cases hv : piIsValid ⟨tg, dt⟩ = true <;> simp [hv, downgradePhase, h]
  · simp [h]

/-- The processing-instruction arm of `parse` keeps a document phase that
has already moved past the XML declaration. -/
theorem parseFromRPI_phase_doc (st : XmlReader)
    (h : st.documentState = .prologWaitForDocumentType) :
    ((parseFromRPI st).2).documentState = .prologWaitForDocumentType := by
  rw [parseFromRPI, parseWrapRPI_phase]
  exact execRPI_phase_doc st h

/-- When the processing-instruction arm of `parse` surfaces a
`ProcessingInstruction` token, the resulting document phase is the
downgraded entry phase. -/
theorem parseFromRPI_pi_phase (st : XmlReader)
    (h : (parseFromRPI st).1 = .processingInstruction) :
    ((parseFromRPI st).2).documentState =
      downgradePhase st.documentState := by
  rw [parseFromRPI, executeParsingStateReadingProcessingInstruction] at h ⊢
  rcases hpi : piParse st.buffer with _ | _ | ⟨tg, dt, rest⟩ | ⟨attrs, rest⟩ <;>
    rw [hpi] at h
  · simp [parseWrapRPI, finish] at h
  · simp [parseWrapRPI, finish] at h
  · by_cases hv : piIsValid ⟨tg, dt⟩ = true
    · simp [hv, parseWrapRPI, finish]
    · simp [hv, parseWrapRPI, finish] at h
  · by_cases hd : st.documentState = .prologWaitForXmlDeclaration
    · rcases hda : xmlDeclFromAttrs attrs with _ | d <;>
        simp [hd, hda, parseWrapRPI, finish] at h
    · simp [hd, parseWrapRPI, finish] at h

/-- When the token-type arm of `parse` surfaces a `ProcessingInstruction`
token from the wait-for-XML-declaration phase, the resulting phase has moved
on to waiting for the document type. -/
theorem parseFromRTT_pi_phase (st : XmlReader)
    (hph : st.documentState = .prologWaitForXmlDeclaration)
    (h : (parseFromRTT st).1 = .processingInstruction) :
    ((parseFromRTT st).2).documentState = .prologWaitForDocumentType := by
  rw [parseFromRTT] at h ⊢
  rcases hex : executeParsingStateReadingTokenType st with ⟨ps, st'⟩
  rw [hex] at h
  have hphases : st'.documentState = st.documentState ∨
      st'.documentState = downgradePhase st.documentState := by
    have h0 := execRTT_phase_cases st
    rwa [hex] at h0
  cases ps
  case readingProcessingInstruction =>
    have hw : parseWrapRTT (ParsingState.readingProcessingInstruction, st') =
        parseFromRPI
          { st' with parsingState := .readingProcessingInstruction } := rfl
    rw [hw] at h ⊢
    rw [parseFromRPI_pi_phase _ h]
    show downgradePhase st'.documentState = _
    rcases hphases with hh | hh <;> rw [hh, hph] <;> rfl
  all_goals simp [parseWrapRTT, finish] at h

/-- A whitespace item at the head of the buffer, read by a token-type
parser whose ignore-whitespace option is off, downgrades the
wait-for-XML-declaration phase — whatever happens afterwards in the same
`parse` call. -/
theorem parseFromRTT_ws_phase (st : XmlReader) (c : Char) (rest : List Char)
    (hb : st.buffer = c :: rest) (hc : isXmlWhitespace c = true)
    (ho : st.tokenOption = false)
    (hph : st.documentState = .prologWaitForXmlDeclaration) :
    ((parseFromRTT st).2).documentState = .prologWaitForDocumentType := by
  have hcl : classifyTok st.tokenOption st.buffer =
      .found .whitespace (c :: rest) := by
    rw [ho, hb]
    simp [classifyTok, classifyCore, hc]
  rw [parseFromRTT, executeParsingStateReadingTokenType, hcl]
  show ((parseWrapRTT (execAfterWhitespace { st with
    documentState := downgradePhase st.documentState,
    tokenOption := true })).2).documentState = _
  have h1 : ({ st with
      documentState := downgradePhase st.documentState,
      tokenOption := true } : XmlReader).documentState =
      .prologWaitForDocumentType := by
    simp [downgradePhase, hph]
  rcases hea : execAfterWhitespace { st with
      documentState := downgradePhase st.documentState,
      tokenOption := true } with ⟨ps, st2⟩
  have h2 : st2.documentState = .prologWaitForDocumentType := by
    rcases execAfterWhitespace_phase_cases { st with
        documentState := downgradePhase st.documentState,
        tokenOption := true } with hh | hh
    · rw [hea] at hh
      rw [hh, h1]
    · rw [hea] at hh
      rw [hh, h1]
      rfl
  cases ps
  case readingProcessingInstruction =>
    show ((parseFromRPI
      { st2 with parsingState := .readingProcessingInstruction }
      ).2).documentState = _
    exact parseFromRPI_phase_doc _ h2
  all_goals simp [parseWrapRTT, finish, h2]

end EmbeddedStAX

open EmbeddedStAX in
/-- C4 (downgrade rule): while the document phase is still
`PrologWaitForXmlDeclaration`, parsing a leading whitespace item — from a
fresh (`Idle`) reader or from the token-type reading state with the
ignore-whitespace option off — advances the phase to
`PrologWaitForDocumentType`, and so does completing any token other than an
XML declaration (a generic processing instruction, the only other completed
token this reader can surface).  An XML declaration can therefore never be
accepted later. -/
theorem C4_downgrade_rule (st : XmlReader) (c : Char) (rest : List Char) :
    ((st.parsingState = ParsingState.idle ∨
        (st.parsingState = ParsingState.readingTokenType ∧
         st.tokenOption = false ∧
         st.documentState = DocumentState.prologWaitForXmlDeclaration)) →
      st.buffer = c :: rest → isXmlWhitespace c = true →
      ((parse st).2).documentState =
        DocumentState.prologWaitForDocumentType) ∧
    (st.documentState = DocumentState.prologWaitForXmlDeclaration →
      (parse st).1 = ParsingResult.processingInstruction →
      ((parse st).2).documentState =
        DocumentState.prologWaitForDocumentType) := by
  constructor
  · rintro (hidle | ⟨hrtt, ho, hph⟩) hb hc
    · simp only [parse, hidle]
      exact parseFromRTT_ws_phase _ c rest hb hc rfl rfl
    · simp only [parse, hrtt]
      exact parseFromRTT_ws_phase st c rest hb hc ho hph
  · intro hph h
    cases hps : st.parsingState <;> rw [parse, hps] at h ⊢
    case idle =>
      exact parseFromRTT_pi_phase _ rfl h
    case readingTokenType =>
      exact parseFromRTT_pi_phase st hph h
    case readingProcessingInstruction =>
      rw [parseFromRPI_pi_phase st h, hph]
      rfl
    case processingInstructionRead =>
      exact parseFromRTT_pi_phase _ hph h
    case xmlDeclarationRead =>
      exact parseFromRTT_pi_phase _ hph h
    all_goals simp [finish] at h

open EmbeddedStAX in
/-- C4 witness: a single space downgrades the fresh reader's phase; a
completed generic processing instruction downgrades it as well. -/
theorem C4_downgrade_witness :
    ((parse (writeData initialReader (" ".toList))).2).documentState =
      DocumentState.prologWaitForDocumentType ∧
    ((parse (writeData initialReader ("<?t v?>".toList))).2).documentState =
      DocumentState.prologWaitForDocumentType :=
  ⟨(C4_downgrade_rule (writeData initialReader (" ".toList)) ' ' []).1
     (Or.inl (by decide)) (by decide) (by decide),
   (C4_downgrade_rule (writeData initialReader ("<?t v?>".toList)) ' ' []).2
     (by decide) (by decide)⟩

namespace EmbeddedStAX

/-!
Extension (monotonicity) lemmas: once a scanner has produced a definite
answer on a buffer, appending further data cannot change it — the produced
value is the same, and the unconsumed rest is extended by the new data.
These are the restartability contract of spec section 4.2 and drive the
chunking-invariance proof.
-/

/-- A matched literal stays matched under buffer extension. -/
theorem matchLit_append_matched (l s t r : List Char)
    (h : matchLit l s = .litMatched r) :
    matchLit l (s ++ t) = .litMatched (r ++ t) := by
  induction l generalizing s with
  | nil =>
    simp [matchLit] at h
    simp [matchLit, h]
  | cons a l ih =>
    cases s with
    | nil => simp [matchLit] at h
    | cons ch s2 =>
      rw [matchLit] at h
      by_cases hch : ch = a
      · rw [List.cons_append, matchLit, if_pos hch]
        rw [if_pos hch] at h
        exact ih s2 h
      · rw [if_neg hch] at h
        exact absurd h (by simp)

/-- A mismatched literal stays mismatched under buffer extension. -/
theorem matchLit_append_mismatch (l s t : List Char)
    (h : matchLit l s = .litMismatch) :
    matchLit l (s ++ t) = .litMismatch := by
  induction l generalizing s with
  | nil => simp [matchLit] at h
  | cons a l ih =>
    cases s with
    | nil => simp [matchLit] at h
    | cons ch s2 =>
      rw [matchLit] at h
      by_cases hch : ch = a
      · rw [List.cons_append, matchLit, if_pos hch]
        rw [if_pos hch] at h
        exact ih s2 h
      · rw [List.cons_append, matchLit, if_neg hch]

/-- A found quote stays found under buffer extension. -/
theorem splitAtChar_append (q : Char) (s t v r : List Char)
    (h : splitAtChar q s = some (v, r)) :
    splitAtChar q (s ++ t) = some (v, r ++ t) := by
  induction s generalizing v r with
  | nil => simp [splitAtChar] at h
  | cons ch s2 ih =>
    rw [splitAtChar] at h
    rw [List.cons_append, splitAtChar]
    by_cases hch : ch = q
    · rw [if_pos hch] at h ⊢
      simp at h
      simp [h.1.symm, h.2.symm]
    · rw [if_neg hch] at h ⊢
      rcases h2 : splitAtChar q s2 with _ | ⟨v2, r2⟩ <;> rw [h2] at h
      · simp at h
      · simp at h
        rw [ih v2 r2 h2]
        simp [h.1.symm, h.2.symm]

/-- A found `?>` terminator stays found under buffer extension. -/
theorem splitAtPiEnd_append (s t d r : List Char)
    (h : splitAtPiEnd s = some (d, r)) :
    splitAtPiEnd (s ++ t) = some (d, r ++ t) := by
  induction s generalizing d r with
  | nil => simp [splitAtPiEnd] at h
  | cons ch s2 ih =>
    cases s2 with
    | nil => simp [splitAtPiEnd] at h
    | cons c2 s3 =>
      rw [splitAtPiEnd] at h
      rw [List.cons_append, List.cons_append, splitAtPiEnd]
      by_cases hq : ch = '?' ∧ c2 = '>'
      · rw [if_pos (by simp [hq.1, hq.2])] at h
        rw [if_pos (by simp [hq.1, hq.2])]
        simp at h
        simp [h.1.symm, h.2.symm]
      · have hcond : (ch = '?' && c2 = '>') = false := by
          rcases Decidable.not_and_iff_or_not.mp hq with h1 | h1 <;>
            simp [h1]
        rw [if_neg (by simp [hcond])] at h
        rw [if_neg (by simp [hcond])]
        rcases h2 : splitAtPiEnd (c2 :: s3) with _ | ⟨d2, r2⟩ <;>
          rw [h2] at h
        · simp at h
        · simp at h
          have := ih d2 r2 h2
          rw [List.cons_append] at this
          rw [this]
          simp [h.1.symm, h.2.symm]

/-- A completed name read stays completed under buffer extension. -/
theorem readNameGo_append (acc s t n r : List Char)
    (h : readNameGo acc s = .ok n r) :
    readNameGo acc (s ++ t) = .ok n (r ++ t) := by
  induction s generalizing acc with
  | nil => simp [readNameGo] at h
  | cons ch s2 ih =>
    rw [readNameGo] at h
    rw [List.cons_append, readNameGo]
    by_cases hch : isNameChar ch = true
    · rw [if_pos hch] at h ⊢
      exact ih (acc ++ [ch]) h
    · rw [if_neg hch] at h ⊢
      simp at h
      simp [h.1.symm, h.2.symm]

/-- `readNameGo` never reports an error. -/
theorem readNameGo_ne_err (acc s : List Char) :
    readNameGo acc s ≠ .err := by
  induction s generalizing acc with
  | nil => simp [readNameGo]
  | cons ch s2 ih =>
    rw [readNameGo]
    by_cases hch : isNameChar ch = true
    · rw [if_pos hch]
      exact ih (acc ++ [ch])
    · rw [if_neg hch]
      simp

/-- A completed `readName` stays completed under buffer extension. -/
theorem readName_append_ok (s t n r : List Char)
    (h : readName s = .ok n r) :
    readName (s ++ t) = .ok n (r ++ t) := by
  cases s with
  | nil => simp [readName] at h
  | cons ch s2 =>
    rw [readName] at h
    rw [List.cons_append, readName]
    by_cases hch : isNameStart ch = true
    · rw [if_pos hch] at h ⊢
      exact readNameGo_append [ch] s2 t n r h
    · rw [if_neg hch] at h
      exact absurd h (by simp)

/-- A failed `readName` stays failed under buffer extension. -/
theorem readName_append_err (s t : List Char) (h : readName s = .err) :
    readName (s ++ t) = .err := by
  cases s with
  | nil => simp [readName] at h
  | cons ch s2 =>
    rw [readName] at h
    rw [List.cons_append, readName]
    by_cases hch : isNameStart ch = true
    · rw [if_pos hch] at h
      exact absurd h (readNameGo_ne_err [ch] s2)
    · rw [if_neg hch]

/-- When `dropWhile` reaches a surviving element, appending data afterwards
extends the survivor's tail. -/
theorem dropWhile_append_cons (p : Char → Bool) (s t : List Char) (ch : Char)
    (r : List Char) (h : s.dropWhile p = ch :: r) :
    (s ++ t).dropWhile p = ch :: (r ++ t) := by
  induction s with
  | nil => simp at h
  | cons a s2 ih =>
    rw [List.dropWhile_cons] at h
    rw [List.cons_append, List.dropWhile_cons]
    by_cases ha : p a = true
    · rw [if_pos ha] at h ⊢
      exact ih h
    · rw [if_neg ha] at h ⊢
      simp at h
      simp [h.1, h.2]

/-- `classifyDash` keeps a found token under buffer extension. -/
theorem classifyDash_append_found (r3 t rest : List Char) (tk : TokenType)
    (h : classifyDash r3 = .found tk rest) :
    classifyDash (r3 ++ t) = .found tk (rest ++ t) := by
  cases r3 with
  | nil => simp [classifyDash] at h
  | cons c4 r4 =>
    rw [classifyDash] at h
    rw [List.cons_append, classifyDash]
    by_cases h4 : c4 = '-'
    · rw [if_pos h4] at h ⊢
      simp at h
      simp [h.1, ← h.2]
    · rw [if_neg h4] at h ⊢
      simp at h
      simp [h.1, ← h.2]

/-- `classifyCdata` keeps a found token under buffer extension. -/
theorem classifyCdata_append_found (r3 t rest : List Char) (tk : TokenType)
    (h : classifyCdata r3 = .found tk rest) :
    classifyCdata (r3 ++ t) = .found tk (rest ++ t) := by
  rw [classifyCdata] at h
  rw [classifyCdata]
  rcases hm : matchLit ("CDATA[".toList) r3 with _ | _ | r5 <;> rw [hm] at h
  · simp at h
  · rw [matchLit_append_mismatch _ _ t hm]
    simp at h
    simp [h.1, ← h.2]
  · rw [matchLit_append_matched _ _ t _ hm]
    simp at h
    simp [h.1, ← h.2]

/-- `classifyDash` never reports an error. -/
theorem classifyDash_ne_error (r3 : List Char) :
    classifyDash r3 ≠ .error := by
  cases r3 with
  | nil => simp [classifyDash]
  | cons c4 r4 =>
    rw [classifyDash]
    by_cases h4 : c4 = '-' <;> simp [h4]

/-- `classifyCdata` never reports an error. -/
theorem classifyCdata_ne_error (r3 : List Char) :
    classifyCdata r3 ≠ .error := by
  rw [classifyCdata]
  rcases hm : matchLit ("CDATA[".toList) r3 with _ | _ | r5 <;> simp

/-- `classifyBang` keeps a found token under buffer extension. -/
theorem classifyBang_append_found (r2 t rest : List Char) (tk : TokenType)
    (h : classifyBang r2 = .found tk rest) :
    classifyBang (r2 ++ t) = .found tk (rest ++ t) := by
  cases r2 with
  | nil => simp [classifyBang] at h
  | cons c3 r3 =>
    rw [classifyBang] at h
    rw [List.cons_append, classifyBang]
    by_cases h3 : c3 = '-'
    · rw [if_pos h3] at h ⊢
      exact classifyDash_append_found r3 t rest tk h
    · rw [if_neg h3] at h ⊢
      by_cases h3b : c3 = '['
      · rw [if_pos h3b] at h ⊢
        exact classifyCdata_append_found r3 t rest tk h
      · rw [if_neg h3b] at h ⊢
        simp at h
        simp [h.1, ← h.2]

/-- `classifyBang` never reports an error. -/
theorem classifyBang_ne_error (r2 : List Char) :
    classifyBang r2 ≠ .error := by
  cases r2 with
  | nil => simp [classifyBang]
  | cons c3 r3 =>
    rw [classifyBang]
    by_cases h3 : c3 = '-'
    · rw [if_pos h3]
      exact classifyDash_ne_error r3
    · rw [if_neg h3]
      by_cases h3b : c3 = '['
      · rw [if_pos h3b]
        exact classifyCdata_ne_error r3
      · rw [if_neg h3b]
        simp

/-- `classifyLt` keeps a found token under buffer extension. -/
theorem classifyLt_append_found (r t rest : List Char) (tk : TokenType)
    (h : classifyLt r = .found tk rest) :
    classifyLt (r ++ t) = .found tk (rest ++ t) := by
  cases r with
  | nil => simp [classifyLt] at h
  | cons c2 r2 =>
    rw [classifyLt] at h
    rw [List.cons_append, classifyLt]
    by_cases hq : c2 = '?'
    · rw [if_pos hq] at h ⊢
      simp at h
      simp [h.1, h.2]
    · rw [if_neg hq] at h ⊢
      by_cases hb : c2 = '!'
      · rw [if_pos hb] at h ⊢
        exact classifyBang_append_found r2 t rest tk h
      · rw [if_neg hb] at h ⊢
        by_cases hs : c2 = '/'
        · rw [if_pos hs] at h ⊢
          simp at h
          simp [h.1, h.2]
        · rw [if_neg hs] at h ⊢
          by_cases hn : isNameStart c2 = true
          · rw [if_pos hn] at h ⊢
            simp at h
            simp [h.1, ← h.2]
          · rw [if_neg hn] at h
            exact absurd h (by simp)

/-- `classifyLt` keeps an error under buffer extension. -/
theorem classifyLt_append_error (r t : List Char)
    (h : classifyLt r = .error) :
    classifyLt (r ++ t) = .error := by
  cases r with
  | nil => simp [classifyLt] at h
  | cons c2 r2 =>
    rw [classifyLt] at h
    rw [List.cons_append, classifyLt]
    by_cases hq : c2 = '?'
    · rw [if_pos hq] at h
      exact absurd h (by simp)
    · rw [if_neg hq] at h ⊢
      by_cases hb : c2 = '!'
      · rw [if_pos hb] at h
        exact absurd h (classifyBang_ne_error r2)
      · rw [if_neg hb] at h ⊢
        by_cases hs : c2 = '/'
        · rw [if_pos hs] at h
          exact absurd h (by simp)
        · rw [if_neg hs] at h ⊢
          by_cases hn : isNameStart c2 = true
          · rw [if_pos hn] at h
            exact absurd h (by simp)
          · rw [if_neg hn] at h ⊢

/-- `classifyCore` keeps a found token under buffer extension. -/
theorem classifyCore_append_found (s t rest : List Char) (tk : TokenType)
    (h : classifyCore s = .found tk rest) :
    classifyCore (s ++ t) = .found tk (rest ++ t) := by
  cases s with
  | nil => simp [classifyCore] at h
  | cons ch r =>
    rw [classifyCore] at h
    rw [List.cons_append, classifyCore]
    by_cases hw : isXmlWhitespace ch = true
    · rw [if_pos hw] at h ⊢
      simp at h
      simp [h.1, ← h.2]
    · rw [if_neg hw] at h ⊢
      by_cases hl : ch = '<'
      · rw [if_pos hl] at h ⊢
        exact classifyLt_append_found r t rest tk h
      · rw [if_neg hl] at h
        exact absurd h (by simp)

/-- `classifyCore` keeps an error under buffer extension. -/
theorem classifyCore_append_error (s t : List Char)
    (h : classifyCore s = .error) :
    classifyCore (s ++ t) = .error := by
  cases s with
  | nil => simp [classifyCore] at h
  | cons ch r =>
    rw [classifyCore] at h
    rw [List.cons_append, classifyCore]
    by_cases hw : isXmlWhitespace ch = true
    · rw [if_pos hw] at h
      exact absurd h (by simp)
    · rw [if_neg hw] at h ⊢
      by_cases hl : ch = '<'
      · rw [if_pos hl] at h ⊢
        exact classifyLt_append_error r t h
      · rw [if_neg hl] at h ⊢

/-- `classifyTok` keeps a found token under buffer extension. -/
theorem classifyTok_append_found (o : Bool) (s t rest : List Char)
    (tk : TokenType) (h : classifyTok o s = .found tk rest) :
    classifyTok o (s ++ t) = .found tk (rest ++ t) := by
  cases o with
  | false => exact classifyCore_append_found s t rest tk h
  | true =>
    rw [classifyTok] at h
    rw [classifyTok]
    simp only [if_pos rfl] at h ⊢
    rcases hd : s.dropWhile (fun ch => isXmlWhitespace ch) with _ | ⟨ch, r⟩
    · rw [hd] at h
      simp [classifyCore] at h
    · rw [hd] at h
      rw [dropWhile_append_cons _ s t ch r hd]
      exact classifyCore_append_found (ch :: r) t rest tk h

/-- `classifyTok` keeps an error under buffer extension. -/
theorem classifyTok_append_error (o : Bool) (s t : List Char)
    (h : classifyTok o s = .error) :
    classifyTok o (s ++ t) = .error := by
  cases o with
  | false => exact classifyCore_append_error s t h
  | true =>
    rw [classifyTok] at h
    rw [classifyTok]
    simp only [if_pos rfl] at h ⊢
    rcases hd : s.dropWhile (fun ch => isXmlWhitespace ch) with _ | ⟨ch, r⟩
    · rw [hd] at h
      simp [classifyCore] at h
    · rw [hd] at h
      rw [dropWhile_append_cons _ s t ch r hd]
      exact classifyCore_append_error (ch :: r) t h

/-- `readDeclEnd` keeps a found `?>` under buffer extension. -/
theorem readDeclEnd_append_endOfDecl (s2 t rest : List Char)
    (h : readDeclEnd s2 = .endOfDecl rest) :
    readDeclEnd (s2 ++ t) = .endOfDecl (rest ++ t) := by
  cases s2 with
  | nil => simp [readDeclEnd] at h
  | cons c2 r =>
    rw [readDeclEnd] at h
    rw [List.cons_append, readDeclEnd]
    by_cases hg : c2 = '>'
    · rw [if_pos hg] at h ⊢
      simp at h
      simp [← h]
    · rw [if_neg hg] at h
      exact absurd h (by simp)

/-- `readDeclEnd` keeps an error under buffer extension. -/
theorem readDeclEnd_append_err (s2 t : List Char)
    (h : readDeclEnd s2 = .err) :
    readDeclEnd (s2 ++ t) = .err := by
  cases s2 with
  | nil => simp [readDeclEnd] at h
  | cons c2 r =>
    rw [readDeclEnd] at h
    rw [List.cons_append, readDeclEnd]
    by_cases hg : c2 = '>'
    · rw [if_pos hg] at h
      exact absurd h (by simp)
    · rw [if_neg hg] at h ⊢

/-- `readDeclEnd` never reports an attribute. -/
theorem readDeclEnd_ne_attr (s2 nm v r : List Char) :
    readDeclEnd s2 ≠ .attr nm v r := by
  cases s2 with
  | nil => simp [readDeclEnd]
  | cons c2 r2 =>
    rw [readDeclEnd]
    by_cases hg : c2 = '>' <;> simp [hg]

/-- `readDeclValue` keeps a read attribute under buffer extension. -/
theorem readDeclValue_append_attr (n r2 t nm v r4 : List Char)
    (h : readDeclValue n r2 = .attr nm v r4) :
    readDeclValue n (r2 ++ t) = .attr nm v (r4 ++ t) := by
  rw [readDeclValue] at h
  rw [readDeclValue]
  rcases hd : r2.dropWhile (fun c0 => isXmlWhitespace c0) with _ | ⟨q, r3⟩ <;>
    rw [hd] at h
  · simp at h
  · rw [dropWhile_append_cons _ r2 t q r3 hd]
    simp only [] at h ⊢
    by_cases hq : (q = '"' || q = '\'') = true
    · rw [if_pos hq] at h ⊢
      rcases hs : splitAtChar q r3 with _ | ⟨v1, r5⟩ <;> rw [hs] at h
      · simp at h
      · rw [splitAtChar_append q r3 t v1 r5 hs]
        simp at h
        simp [h.1, h.2.1, ← h.2.2]
    · rw [if_neg hq] at h
      exact absurd h (by simp)

/-- `readDeclValue` keeps an error under buffer extension. -/
theorem readDeclValue_append_err (n r2 t : List Char)
    (h : readDeclValue n r2 = .err) :
    readDeclValue n (r2 ++ t) = .err := by
  rw [readDeclValue] at h
  rw [readDeclValue]
  rcases hd : r2.dropWhile (fun c0 => isXmlWhitespace c0) with _ | ⟨q, r3⟩ <;>
    rw [hd] at h
  · simp at h
  · rw [dropWhile_append_cons _ r2 t q r3 hd]
    simp only [] at h ⊢
    by_cases hq : (q = '"' || q = '\'') = true
    · rw [if_pos hq] at h ⊢
      rcases hs : splitAtChar q r3 with _ | ⟨v1, r5⟩ <;> rw [hs] at h
      · simp at h
      · exact absurd h (by simp)
    · rw [if_neg hq] at h ⊢

/-- `readDeclValue` never reports the end of the declaration. -/
theorem readDeclValue_ne_endOfDecl (n r2 rest : List Char) :
    readDeclValue n r2 ≠ .endOfDecl rest := by
  rw [readDeclValue]
  rcases hd : r2.dropWhile (fun c0 => isXmlWhitespace c0)
    with _ | ⟨q, r3⟩ <;> simp only []
  · simp
  · by_cases hq : (q = '"' || q = '\'') = true
    · rw [if_pos hq]
      rcases hs : splitAtChar q r3 with _ | ⟨v1, r5⟩ <;> simp
    · rw [if_neg hq]
      simp

/-- `readDeclEq` keeps a read attribute under buffer extension. -/
theorem readDeclEq_append_attr (n r1 t nm v r4 : List Char)
    (h : readDeclEq n r1 = .attr nm v r4) :
    readDeclEq n (r1 ++ t) = .attr nm v (r4 ++ t) := by
  rw [readDeclEq] at h
  rw [readDeclEq]
  rcases hd : r1.dropWhile (fun c0 => isXmlWhitespace c0) with _ | ⟨e1, r2⟩ <;>
    rw [hd] at h
  · simp at h
  · rw [dropWhile_append_cons _ r1 t e1 r2 hd]
    simp only [] at h ⊢
    by_cases he : e1 = '='
    · rw [if_pos he] at h ⊢
      exact readDeclValue_append_attr n r2 t nm v r4 h
    · rw [if_neg he] at h
      exact absurd h (by simp)

/-- `readDeclEq` keeps an error under buffer extension. -/
theorem readDeclEq_append_err (n r1 t : List Char)
    (h : readDeclEq n r1 = .err) :
    readDeclEq n (r1 ++ t) = .err := by
  rw [readDeclEq] at h
  rw [readDeclEq]
  rcases hd : r1.dropWhile (fun c0 => isXmlWhitespace c0) with _ | ⟨e1, r2⟩ <;>
    rw [hd] at h
  · simp at h
  · rw [dropWhile_append_cons _ r1 t e1 r2 hd]
    simp only [] at h ⊢
    by_cases he : e1 = '='
    · rw [if_pos he] at h ⊢
      exact readDeclValue_append_err n r2 t h
    · rw [if_neg he] at h ⊢

/-- `readDeclEq` never reports the end of the declaration. -/
theorem readDeclEq_ne_endOfDecl (n r1 rest : List Char) :
    readDeclEq n r1 ≠ .endOfDecl rest := by
  rw [readDeclEq]
  rcases hd : r1.dropWhile (fun c0 => isXmlWhitespace c0)
    with _ | ⟨e1, r2⟩ <;> simp only []
  · simp
  · by_cases he : e1 = '='
    · rw [if_pos he]
      exact readDeclValue_ne_endOfDecl n r2 rest
    · rw [if_neg he]
      simp

/-- `readDeclItem` keeps a found `?>` under buffer extension. -/
theorem readDeclItem_append_endOfDecl (s t rest : List Char)
    (h : readDeclItem s = .endOfDecl rest) :
    readDeclItem (s ++ t) = .endOfDecl (rest ++ t) := by
  rw [readDeclItem] at h
  rw [readDeclItem]
  rcases hd : s.dropWhile (fun ch => isXmlWhitespace ch) with _ | ⟨ch, s2⟩ <;>
    rw [hd] at h
  · simp at h
  · rw [dropWhile_append_cons _ s t ch s2 hd]
    simp only [] at h ⊢
    by_cases hq : ch = '?'
    · rw [if_pos hq] at h ⊢
      exact readDeclEnd_append_endOfDecl s2 t rest h
    · rw [if_neg hq] at h ⊢
      rcases hn : readName (ch :: s2) with _ | _ | ⟨n, r1⟩ <;> rw [hn] at h
      · simp at h
      · simp at h
      · simp only [] at h
        exact absurd h (readDeclEq_ne_endOfDecl n r1 rest)

/-- `readDeclItem` keeps a read attribute under buffer extension. -/
theorem readDeclItem_append_attr (s t nm v r4 : List Char)
    (h : readDeclItem s = .attr nm v r4) :
    readDeclItem (s ++ t) = .attr nm v (r4 ++ t) := by
  rw [readDeclItem] at h
  rw [readDeclItem]
  rcases hd : s.dropWhile (fun ch => isXmlWhitespace ch) with _ | ⟨ch, s2⟩ <;>
    rw [hd] at h
  · simp at h
  · rw [dropWhile_append_cons _ s t ch s2 hd]
    simp only [] at h ⊢
    by_cases hq : ch = '?'
    · rw [if_pos hq] at h
      exact absurd h (readDeclEnd_ne_attr s2 nm v r4)
    · rw [if_neg hq] at h ⊢
      rcases hn : readName (ch :: s2) with _ | _ | ⟨n, r1⟩ <;> rw [hn] at h
      · simp at h
      · simp at h
      · rw [show ch :: (s2 ++ t) = (ch :: s2) ++ t from rfl,
          readName_append_ok (ch :: s2) t n r1 hn]
        simp only [] at h ⊢
        exact readDeclEq_append_attr n r1 t nm v r4 h

/-- `readDeclItem` keeps an error under buffer extension. -/
theorem readDeclItem_append_err (s t : List Char)
    (h : readDeclItem s = .err) :
    readDeclItem (s ++ t) = .err := by
  rw [readDeclItem] at h
  rw [readDeclItem]
  rcases hd : s.dropWhile (fun ch => isXmlWhitespace ch) with _ | ⟨ch, s2⟩ <;>
    rw [hd] at h
  · simp at h
  · rw [dropWhile_append_cons _ s t ch s2 hd]
    simp only [] at h ⊢
    by_cases hq : ch = '?'
    · rw [if_pos hq] at h ⊢
      exact readDeclEnd_append_err s2 t h
    · rw [if_neg hq] at h ⊢
      rcases hn : readName (ch :: s2) with _ | _ | ⟨n, r1⟩ <;> rw [hn] at h
      · simp at h
      · rw [show ch :: (s2 ++ t) = (ch :: s2) ++ t from rfl,
          readName_append_err (ch :: s2) t hn]
      · rw [show ch :: (s2 ++ t) = (ch :: s2) ++ t from rfl,
          readName_append_ok (ch :: s2) t n r1 hn]
        simp only [] at h ⊢
        exact readDeclEq_append_err n r1 t h

/-- `readDeclTail` keeps a completed declaration tail under buffer
extension. -/
theorem readDeclTail_append_done (s t rest : List Char)
    (attrs : List (List Char × List Char))
    (h : readDeclTail s = .done attrs rest) :
    readDeclTail (s ++ t) = .done attrs (rest ++ t) := by
  rw [readDeclTail] at h
  rw [readDeclTail]
  rcases h1 : readDeclItem s with _ | _ | r1 | ⟨n1, v1, r1⟩ <;> rw [h1] at h
  · simp at h
  · simp at h
  · rw [readDeclItem_append_endOfDecl s t r1 h1]
    simp at h
    simp [h.1, ← h.2]
  · rw [readDeclItem_append_attr s t n1 v1 r1 h1]
    simp only [] at h ⊢
    rcases h2 : readDeclItem r1 with _ | _ | r2 | ⟨n2, v2, r2⟩ <;>
      rw [h2] at h
    · simp at h
    · simp at h
    · rw [readDeclItem_append_endOfDecl r1 t r2 h2]
      simp at h
      simp [h.1, ← h.2]
    · rw [readDeclItem_append_attr r1 t n2 v2 r2 h2]
      simp only [] at h ⊢
      rcases h3 : readDeclItem r2 with _ | _ | r3 | ⟨n3, v3, r3⟩ <;>
        rw [h3] at h
      · simp at h
      · simp at h
      · rw [readDeclItem_append_endOfDecl r2 t r3 h3]
        simp at h
        simp [h.1, ← h.2]
      · rw [readDeclItem_append_attr r2 t n3 v3 r3 h3]
        simp only [] at h ⊢
        rcases h4 : readDeclItem r3 with _ | _ | r4 | ⟨n4, v4, r4⟩ <;>
          rw [h4] at h
        · simp at h
        · simp at h
        · rw [readDeclItem_append_endOfDecl r3 t r4 h4]
          simp at h
          simp [h.1, ← h.2]
        · simp at h

/-- `readDeclTail` keeps an error under buffer extension. -/
theorem readDeclTail_append_err (s t : List Char)
    (h : readDeclTail s = .err) :
    readDeclTail (s ++ t) = .err := by
  rw [readDeclTail] at h
  rw [readDeclTail]
  rcases h1 : readDeclItem s with _ | _ | r1 | ⟨n1, v1, r1⟩ <;> rw [h1] at h
  · simp at h
  · rw [readDeclItem_append_err s t h1]
  · simp at h
  · rw [readDeclItem_append_attr s t n1 v1 r1 h1]
    simp only [] at h ⊢
    rcases h2 : readDeclItem r1 with _ | _ | r2 | ⟨n2, v2, r2⟩ <;>
      rw [h2] at h
    · simp at h
    · rw [readDeclItem_append_err r1 t h2]
    · simp at h
    · rw [readDeclItem_append_attr r1 t n2 v2 r2 h2]
      simp only [] at h ⊢
      rcases h3 : readDeclItem r2 with _ | _ | r3 | ⟨n3, v3, r3⟩ <;>
        rw [h3] at h
      · simp at h
      · rw [readDeclItem_append_err r2 t h3]
      · simp at h
      · rw [readDeclItem_append_attr r2 t n3 v3 r3 h3]
        simp only [] at h ⊢
        rcases h4 : readDeclItem r3 with _ | _ | r4 | ⟨n4, v4, r4⟩ <;>
          rw [h4] at h
        · simp at h
        · rw [readDeclItem_append_err r3 t h4]
        · simp at h
        · rw [readDeclItem_append_attr r3 t n4 v4 r4 h4]

/-- `piParse` keeps a read processing instruction under buffer extension. -/
theorem piParse_append_piRead (s t tg d r : List Char)
    (h : piParse s = .piRead tg d r) :
    piParse (s ++ t) = .piRead tg d (r ++ t) := by
  rw [piParse] at h
  rw [piParse]
  rcases hn : readName s with _ | _ | ⟨n, r1⟩ <;> rw [hn] at h
  · simp at h
  · simp at h
  · rw [readName_append_ok s t n r1 hn]
    simp only [] at h ⊢
    by_cases hx : toLowerL n = "xml".toList
    · rw [if_pos hx] at h
      exact absurd h (by
        rcases readDeclTail r1 with _ | _ | ⟨attrs, rest⟩ <;> simp)
    · rw [if_neg hx] at h ⊢
      rcases hs : splitAtPiEnd r1 with _ | ⟨d1, r2⟩ <;> rw [hs] at h
      · simp at h
      · rw [splitAtPiEnd_append r1 t d1 r2 hs]
        simp at h
        simp [h.1, h.2.1, ← h.2.2]

/-- `piParse` keeps a read XML declaration under buffer extension. -/
theorem piParse_append_xmlDeclRead (s t r : List Char)
    (attrs : List (List Char × List Char))
    (h : piParse s = .xmlDeclRead attrs r) :
    piParse (s ++ t) = .xmlDeclRead attrs (r ++ t) := by
  rw [piParse] at h
  rw [piParse]
  rcases hn : readName s with _ | _ | ⟨n, r1⟩ <;> rw [hn] at h
  · simp at h
  · simp at h
  · rw [readName_append_ok s t n r1 hn]
    simp only [] at h ⊢
    by_cases hx : toLowerL n = "xml".toList
    · rw [if_pos hx] at h ⊢
      rcases hd : readDeclTail r1 with _ | _ | ⟨attrs1, rest1⟩ <;>
        rw [hd] at h
      · simp at h
      · simp at h
      · rw [readDeclTail_append_done r1 t rest1 attrs1 hd]
        simp at h
        simp [h.1, ← h.2]
    · rw [if_neg hx] at h
      exact absurd h (by
        rcases splitAtPiEnd r1 with _ | ⟨d1, r2⟩ <;> simp)

/-- `piParse` keeps an error under buffer extension. -/
theorem piParse_append_error (s t : List Char) (h : piParse s = .error) :
    piParse (s ++ t) = .error := by
  rw [piParse] at h
  rw [piParse]
  rcases hn : readName s with _ | _ | ⟨n, r1⟩ <;> rw [hn] at h
  · simp at h
  · rw [readName_append_err s t hn]
  · rw [readName_append_ok s t n r1 hn]
    simp only [] at h ⊢
    by_cases hx : toLowerL n = "xml".toList
    · rw [if_pos hx] at h ⊢
      rcases hd : readDeclTail r1 with _ | _ | ⟨attrs1, rest1⟩ <;>
        rw [hd] at h
      · simp at h
      · rw [readDeclTail_append_err r1 t hd]
      · simp at h
    · rw [if_neg hx] at h
      exact absurd h (by
        rcases splitAtPiEnd r1 with _ | ⟨d1, r2⟩ <;> simp)

/-!
Progress lemmas: a completed token consumes at least one code point of the
buffer, so `parse` loops driven by the buffer length terminate.
-/

/-- Dropping a prefix never lengthens a list. -/
theorem dropWhile_length_le (p : Char → Bool) (l : List Char) :
    (l.dropWhile p).length ≤ l.length := by
  induction l with
  | nil => simp
  | cons a l2 ih =>
    rw [List.dropWhile_cons]
    split_ifs
    · exact Nat.le_succ_of_le ih
    · simp

/-- The rest after a completed `readNameGo` is a suffix bound. -/
theorem readNameGo_length (acc s n r : List Char)
    (h : readNameGo acc s = .ok n r) : r.length ≤ s.length := by
  induction s generalizing acc with
  | nil => simp [readNameGo] at h
  | cons ch s2 ih =>
    rw [readNameGo] at h
    by_cases hch : isNameChar ch = true
    · rw [if_pos hch] at h
      exact Nat.le_succ_of_le (ih (acc ++ [ch]) h)
    · rw [if_neg hch] at h
      simp at h
      rw [← h.2]

/-- A completed name consumes at least one code point. -/
theorem readName_length (s n r : List Char) (h : readName s = .ok n r) :
    r.length < s.length := by
  cases s with
  | nil => simp [readName] at h
  | cons ch s2 =>
    rw [readName] at h
    by_cases hch : isNameStart ch = true
    · rw [if_pos hch] at h
      exact Nat.lt_succ_of_le (readNameGo_length [ch] s2 n r h)
    · rw [if_neg hch] at h
      exact absurd h (by simp)

/-- A found quote consumes at least the quote itself. -/
theorem splitAtChar_length (q : Char) (s v r : List Char)
    (h : splitAtChar q s = some (v, r)) : r.length < s.length := by
  induction s generalizing v r with
  | nil => simp [splitAtChar] at h
  | cons ch s2 ih =>
    rw [splitAtChar] at h
    by_cases hch : ch = q
    · rw [if_pos hch] at h
      simp at h
      rw [← h.2]
      simp [Nat.lt_succ_self]
    · rw [if_neg hch] at h
      rcases h2 : splitAtChar q s2 with _ | ⟨v2, r2⟩ <;> rw [h2] at h
      · simp at h
      · simp at h
        rw [← h.2]
        exact Nat.lt_succ_of_lt (ih v2 r2 h2)

/-- A found `?>` terminator consumes at least the terminator itself. -/
theorem splitAtPiEnd_length (s d r : List Char)
    (h : splitAtPiEnd s = some (d, r)) : r.length < s.length := by
  induction s generalizing d r with
  | nil => simp [splitAtPiEnd] at h
  | cons ch s2 ih =>
    cases s2 with
    | nil => simp [splitAtPiEnd] at h
    | cons c2 s3 =>
      rw [splitAtPiEnd] at h
      by_cases hq : (ch = '?' && c2 = '>') = true
      · rw [if_pos hq] at h
        simp at h
        rw [← h.2]
        simp [Nat.lt_succ_of_lt, Nat.lt_succ_self]
      · rw [if_neg hq] at h
        rcases h2 : splitAtPiEnd (c2 :: s3) with _ | ⟨d2, r2⟩ <;>
          rw [h2] at h
        · simp at h
        · simp at h
          rw [← h.2]
          exact Nat.lt_succ_of_lt (ih d2 r2 h2)

/-- The rest after the closing `?>` is no longer than the input. -/
theorem readDeclEnd_length (s2 rest : List Char)
    (h : readDeclEnd s2 = .endOfDecl rest) : rest.length ≤ s2.length := by
  cases s2 with
  | nil => simp [readDeclEnd] at h
  | cons c2 r =>
    rw [readDeclEnd] at h
    by_cases hg : c2 = '>'
    · rw [if_pos hg] at h
      simp at h
      rw [← h]
      exact Nat.le_succ_of_le (Nat.le_refl _)
    · rw [if_neg hg] at h
      exact absurd h (by simp)

/-- The rest after a read value is no longer than the input. -/
theorem readDeclValue_length (n r2 nm v r4 : List Char)
    (h : readDeclValue n r2 = .attr nm v r4) : r4.length ≤ r2.length := by
  rw [readDeclValue] at h
  rcases hd : r2.dropWhile (fun c0 => isXmlWhitespace c0) with _ | ⟨q, r3⟩ <;>
    rw [hd] at h
  · simp at h
  · simp only [] at h
    by_cases hq : (q = '"' || q = '\'') = true
    · rw [if_pos hq] at h
      rcases hs : splitAtChar q r3 with _ | ⟨v1, r5⟩ <;> rw [hs] at h
      · simp at h
      · simp at h
        have h1 : r5.length < r3.length := splitAtChar_length q r3 v1 r5 hs
        have h2 : (q :: r3).length ≤ r2.length := by
          rw [← hd]
          exact dropWhile_length_le _ r2
        rw [← h.2.2]
        have : r5.length < (q :: r3).length := Nat.lt_succ_of_lt h1
        omega
    · rw [if_neg hq] at h
      exact absurd h (by simp)

/-- The rest after a read `= value` is no longer than the input. -/
theorem readDeclEq_length (n r1 nm v r4 : List Char)
    (h : readDeclEq n r1 = .attr nm v r4) : r4.length ≤ r1.length := by
  rw [readDeclEq] at h
  rcases hd : r1.dropWhile (fun c0 => isXmlWhitespace c0) with _ | ⟨e1, r2⟩ <;>
    rw [hd] at h
  · simp at h
  · simp only [] at h
    by_cases he : e1 = '='
    · rw [if_pos he] at h
      have h1 := readDeclValue_length n r2 nm v r4 h
      have h2 : (e1 :: r2).length ≤ r1.length := by
        rw [← hd]
        exact dropWhile_length_le _ r1
      simp at h2
      omega
    · rw [if_neg he] at h
      exact absurd h (by simp)

/-- The rest after one declaration item is no longer than the input. -/
theorem readDeclItem_length_endOfDecl (s rest : List Char)
    (h : readDeclItem s = .endOfDecl rest) : rest.length ≤ s.length := by
  rw [readDeclItem] at h
  rcases hd : s.dropWhile (fun ch => isXmlWhitespace ch) with _ | ⟨ch, s2⟩ <;>
    rw [hd] at h
  · simp at h
  · simp only [] at h
    have h2 : (ch :: s2).length ≤ s.length := by
      rw [← hd]
      exact dropWhile_length_le _ s
    simp at h2
    by_cases hq : ch = '?'
    · rw [if_pos hq] at h
      have := readDeclEnd_length s2 rest h
      omega
    · rw [if_neg hq] at h
      rcases hn : readName (ch :: s2) with _ | _ | ⟨n, r1⟩ <;> rw [hn] at h
      · simp at h
      · simp at h
      · simp only [] at h
        exact absurd h (readDeclEq_ne_endOfDecl n r1 rest)

/-- The rest after one read attribute is no longer than the input. -/
theorem readDeclItem_length_attr (s nm v r4 : List Char)
    (h : readDeclItem s = .attr nm v r4) : r4.length ≤ s.length := by
  rw [readDeclItem] at h
  rcases hd : s.dropWhile (fun ch => isXmlWhitespace ch) with _ | ⟨ch, s2⟩ <;>
    rw [hd] at h
  · simp at h
  · simp only [] at h
    have h2 : (ch :: s2).length ≤ s.length := by
      rw [← hd]
      exact dropWhile_length_le _ s
    simp at h2
    by_cases hq : ch = '?'
    · rw [if_pos hq] at h
      exact absurd h (readDeclEnd_ne_attr s2 nm v r4)
    · rw [if_neg hq] at h
      rcases hn : readName (ch :: s2) with _ | _ | ⟨n, r1⟩ <;> rw [hn] at h
      · simp at h
      · simp at h
      · simp only [] at h
        have h3 := readDeclEq_length n r1 nm v r4 h
        have h4 := readName_length (ch :: s2) n r1 hn
        simp at h4
        omega

/-- The rest after a completed declaration tail is no longer than the
input. -/
theorem readDeclTail_length (s rest : List Char)
    (attrs : List (List Char × List Char))
    (h : readDeclTail s = .done attrs rest) : rest.length ≤ s.length := by
  rw [readDeclTail] at h
  rcases h1 : readDeclItem s with _ | _ | r1 | ⟨n1, v1, r1⟩ <;> rw [h1] at h
  · simp at h
  · simp at h
  · simp at h
    rw [← h.2]
    exact readDeclItem_length_endOfDecl s r1 h1
  · simp only [] at h
    have e1 := readDeclItem_length_attr s n1 v1 r1 h1
    rcases h2 : readDeclItem r1 with _ | _ | r2 | ⟨n2, v2, r2⟩ <;>
      rw [h2] at h
    · simp at h
    · simp at h
    · simp at h
      rw [← h.2]
      have := readDeclItem_length_endOfDecl r1 r2 h2
      omega
    · simp only [] at h
      have e2 := readDeclItem_length_attr r1 n2 v2 r2 h2
      rcases h3 : readDeclItem r2 with _ | _ | r3 | ⟨n3, v3, r3⟩ <;>
        rw [h3] at h
      · simp at h
      · simp at h
      · simp at h
        rw [← h.2]
        have := readDeclItem_length_endOfDecl r2 r3 h3
        omega
      · simp only [] at h
        have e3 := readDeclItem_length_attr r2 n3 v3 r3 h3
        rcases h4 : readDeclItem r3 with _ | _ | r4 | ⟨n4, v4, r4⟩ <;>
          rw [h4] at h
        · simp at h
        · simp at h
        · simp at h
          rw [← h.2]
          have := readDeclItem_length_endOfDecl r3 r4 h4
          omega
        · simp at h

/-- A completed processing instruction consumes at least one code point. -/
theorem piParse_piRead_length (s tg d r : List Char)
    (h : piParse s = .piRead tg d r) : r.length < s.length := by
  rw [piParse] at h
  rcases hn : readName s with _ | _ | ⟨n, r1⟩ <;> rw [hn] at h
  · simp at h
  · simp at h
  · simp only [] at h
    have h1 := readName_length s n r1 hn
    by_cases hx : toLowerL n = "xml".toList
    · rw [if_pos hx] at h
      exact absurd h (by
        rcases readDeclTail r1 with _ | _ | ⟨attrs, rest⟩ <;> simp)
    · rw [if_neg hx] at h
      rcases hs : splitAtPiEnd r1 with _ | ⟨d1, r2⟩ <;> rw [hs] at h
      · simp at h
      · simp at h
        have h2 := splitAtPiEnd_length r1 d1 r2 hs
        rw [← h.2.2]
        omega

/-- A completed XML declaration consumes at least one code point. -/
theorem piParse_xmlDeclRead_length (s r : List Char)
    (attrs : List (List Char × List Char))
    (h : piParse s = .xmlDeclRead attrs r) : r.length < s.length := by
  rw [piParse] at h
  rcases hn : readName s with _ | _ | ⟨n, r1⟩ <;> rw [hn] at h
  · simp at h
  · simp at h
  · simp only [] at h
    have h1 := readName_length s n r1 hn
    by_cases hx : toLowerL n = "xml".toList
    · rw [if_pos hx] at h
      rcases hd : readDeclTail r1 with _ | _ | ⟨attrs1, rest1⟩ <;>
        rw [hd] at h
      · simp at h
      · simp at h
      · simp at h
        have h2 := readDeclTail_length r1 rest1 attrs1 hd
        rw [← h.2]
        omega
    · rw [if_neg hx] at h
      exact absurd h (by
        rcases splitAtPiEnd r1 with _ | ⟨d1, r2⟩ <;> simp)

/-- `classifyBang` never classifies a processing instruction. -/
theorem classifyBang_ne_pi (r2 rest : List Char) :
    classifyBang r2 ≠ .found .processingInstruction rest := by
  cases r2 with
  | nil => simp [classifyBang]
  | cons c3 r3 =>
    rw [classifyBang]
    by_cases h3 : c3 = '-'
    · rw [if_pos h3]
      rcases r3 with _ | ⟨c4, r4⟩
      · simp [classifyDash]
      · rw [classifyDash]
        by_cases h4 : c4 = '-' <;> simp [h4]
    · rw [if_neg h3]
      by_cases h3b : c3 = '['
      · rw [if_pos h3b, classifyCdata]
        rcases matchLit ("CDATA[".toList) r3 with _ | _ | r5 <;> simp
      · rw [if_neg h3b]
        simp

/-- A classified processing-instruction sentinel consumes at least the two
code points `<?`. -/
theorem classifyCore_pi_length (s rest : List Char)
    (h : classifyCore s = .found .processingInstruction rest) :
    rest.length < s.length := by
  cases s with
  | nil => simp [classifyCore] at h
  | cons ch r =>
    rw [classifyCore] at h
    by_cases hw : isXmlWhitespace ch = true
    · rw [if_pos hw] at h
      simp at h
    · rw [if_neg hw] at h
      by_cases hl : ch = '<'
      · rw [if_pos hl] at h
        cases r with
        | nil => simp [classifyLt] at h
        | cons c2 r2 =>
          rw [classifyLt] at h
          by_cases hq : c2 = '?'
          · rw [if_pos hq] at h
            simp at h
            rw [← h]
            simp
            omega
          · rw [if_neg hq] at h
            by_cases hb : c2 = '!'
            · rw [if_pos hb] at h
              exact absurd h (classifyBang_ne_pi r2 rest)
            · rw [if_neg hb] at h
              by_cases hs : c2 = '/'
              · rw [if_pos hs] at h
                simp at h
              · rw [if_neg hs] at h
                by_cases hn : isNameStart c2 = true
                · rw [if_pos hn] at h
                  simp at h
                · rw [if_neg hn] at h
                  exact absurd h (by simp)
      · rw [if_neg hl] at h
        exact absurd h (by simp)

/-- `classifyTok` on a processing-instruction sentinel consumes at least the
two code points `<?`. -/
theorem classifyTok_pi_length (o : Bool) (s rest : List Char)
    (h : classifyTok o s = .found .processingInstruction rest) :
    rest.length < s.length := by
  cases o with
  | false => exact classifyCore_pi_length s rest h
  | true =>
    rw [classifyTok] at h
    simp only [if_pos rfl] at h
    have h1 := classifyCore_pi_length _ rest h
    have h2 := dropWhile_length_le (fun ch => isXmlWhitespace ch) s
    omega

/-!
Inversion lemmas for the whitespace item, and congruence lemmas showing that
the `parse` arms ignore (and overwrite) the parsing state and the last
parsing result stored in the reader.
-/

/-- A whitespace code point at the head of the buffer is recognised. -/
theorem classifyCore_ws_head (ch : Char) (r : List Char)
    (h : isXmlWhitespace ch = true) :
    classifyCore (ch :: r) = .found .whitespace (ch :: r) := by
  simp [classifyCore, h]

/-- `classifyBang` never classifies whitespace. -/
theorem classifyBang_ne_ws (r2 rest : List Char) :
    classifyBang r2 ≠ .found .whitespace rest := by
  cases r2 with
  | nil => simp [classifyBang]
  | cons c3 r3 =>
    rw [classifyBang]
    by_cases h3 : c3 = '-'
    · rw [if_pos h3]
      rcases r3 with _ | ⟨c4, r4⟩
      · simp [classifyDash]
      · rw [classifyDash]
        by_cases h4 : c4 = '-' <;> simp [h4]
    · rw [if_neg h3]
      by_cases h3b : c3 = '['
      · rw [if_pos h3b, classifyCdata]
        rcases matchLit ("CDATA[".toList) r3 with _ | _ | r5 <;> simp
      · rw [if_neg h3b]
        simp

/-- `classifyLt` never classifies whitespace. -/
theorem classifyLt_ne_ws (r rest : List Char) :
    classifyLt r ≠ .found .whitespace rest := by
  cases r with
  | nil => simp [classifyLt]
  | cons c2 r2 =>
    rw [classifyLt]
    by_cases hq : c2 = '?'
    · rw [if_pos hq]
      simp
    · rw [if_neg hq]
      by_cases hb : c2 = '!'
      · rw [if_pos hb]
        exact classifyBang_ne_ws r2 rest
      · rw [if_neg hb]
        by_cases hs : c2 = '/'
        · rw [if_pos hs]
          simp
        · rw [if_neg hs]
          by_cases hn : isNameStart c2 = true <;> simp [hn]

/-- The whitespace item arises only from a whitespace head with the
ignore-whitespace option off, and consumes nothing. -/
theorem classifyCore_ws_inv (s rest : List Char)
    (h : classifyCore s = .found .whitespace rest) :
    rest = s ∧ ∃ ch r2, s = ch :: r2 ∧ isXmlWhitespace ch = true := by
  cases s with
  | nil => simp [classifyCore] at h
  | cons ch r =>
    rw [classifyCore] at h
    by_cases hw : isXmlWhitespace ch = true
    · rw [if_pos hw] at h
      simp at h
      exact ⟨h.symm, ch, r, rfl, hw⟩
    · rw [if_neg hw] at h
      by_cases hl : ch = '<'
      · rw [if_pos hl] at h
        exact absurd h (classifyLt_ne_ws r rest)
      · rw [if_neg hl] at h
        exact absurd h (by simp)

/-- The head surviving `dropWhile` falsifies the predicate. -/
theorem dropWhile_head_not (p : Char → Bool) (l : List Char) (ch : Char)
    (r : List Char) (h : l.dropWhile p = ch :: r) : p ch = false := by
  induction l with
  | nil => simp at h
  | cons a l2 ih =>
    rw [List.dropWhile_cons] at h
    by_cases ha : p a = true
    · rw [if_pos ha] at h
      exact ih h
    · rw [if_neg ha] at h
      simp at h
      rw [← h.1]
      simp [ha]

/-- The classifier with the ignore-whitespace option, as an equation. -/
theorem classifyTok_eq_true (s : List Char) :
    classifyTok true s =
      classifyCore (s.dropWhile fun ch => isXmlWhitespace ch) := rfl

/-- The classifier without the ignore-whitespace option, as an equation. -/
theorem classifyTok_eq_false (s : List Char) :
    classifyTok false s = classifyCore s := rfl

/-- With the ignore-whitespace option set, the classifier never reports a
whitespace item. -/
theorem classifyTok_true_ne_ws (s rest : List Char) :
    classifyTok true s ≠ .found .whitespace rest := by
  rw [classifyTok_eq_true]
  rcases hd : s.dropWhile (fun ch => isXmlWhitespace ch) with _ | ⟨ch, r⟩
  · simp [classifyCore]
  · intro h
    obtain ⟨_, ch2, r2, he, hw⟩ := classifyCore_ws_inv _ rest h
    have h2 := dropWhile_head_not (fun ch => isXmlWhitespace ch) s ch r hd
    simp at he
    rw [← he.1] at hw
    simp [hw] at h2

/-- The whitespace item fixes the option, the rest, and the head. -/
theorem classifyTok_ws_inv (o : Bool) (s rest : List Char)
    (h : classifyTok o s = .found .whitespace rest) :
    o = false ∧ rest = s ∧
      ∃ ch r2, s = ch :: r2 ∧ isXmlWhitespace ch = true := by
  cases o with
  | true => exact absurd h (classifyTok_true_ne_ws s rest)
  | false => exact ⟨rfl, classifyCore_ws_inv s rest h⟩

/-- `parseFromRPI` depends only on the phase, option, buffer and stored
tokens of the reader — not on its parsing state or last result, which every
arm overwrites. -/
theorem parseFromRPI_congr (st₁ st₂ : XmlReader)
    (hd : st₁.documentState = st₂.documentState)
    (ht : st₁.tokenOption = st₂.tokenOption)
    (hb : st₁.buffer = st₂.buffer)
    (hx : st₁.xmlDeclaration = st₂.xmlDeclaration)
    (hp : st₁.processingInstruction = st₂.processingInstruction) :
    parseFromRPI st₁ = parseFromRPI st₂ := by
  obtain ⟨d1, p1, q1, t1, b1, x1, pi1⟩ := st₁
  obtain ⟨d2, p2, q2, t2, b2, x2, pi2⟩ := st₂
  simp at hd ht hb hx hp
  subst hd ht hb hx hp
  rw [parseFromRPI, parseFromRPI, executeParsingStateReadingProcessingInstruction,
    executeParsingStateReadingProcessingInstruction]
  simp only []
  rcases hpi : piParse b1 with _ | _ | ⟨tg, dt, rest⟩ | ⟨attrs, rest⟩ <;>
    simp only []
  · rfl
  · rfl
  · by_cases hv : piIsValid ⟨tg, dt⟩ = true <;>
      simp [hv, parseWrapRPI, finish]
  · by_cases hph : d1 = DocumentState.prologWaitForXmlDeclaration <;>
      [rcases xmlDeclFromAttrs attrs with _ | dd; skip] <;>
      simp [hph, parseWrapRPI, finish]

/-- `parseWrapRTT ∘ dispatchTokenType` depends only on the phase, option,
buffer and stored tokens of the reader. -/
theorem wrap_dispatch_congr (t : TokenType) (rest : List Char)
    (st₁ st₂ : XmlReader)
    (hd : st₁.documentState = st₂.documentState)
    (ht : st₁.tokenOption = st₂.tokenOption)
    (hb : st₁.buffer = st₂.buffer)
    (hx : st₁.xmlDeclaration = st₂.xmlDeclaration)
    (hp : st₁.processingInstruction = st₂.processingInstruction) :
    parseWrapRTT (dispatchTokenType t rest st₁) =
      parseWrapRTT (dispatchTokenType t rest st₂) := by
  obtain ⟨d1, p1, q1, t1, b1, x1, pi1⟩ := st₁
  obtain ⟨d2, p2, q2, t2, b2, x2, pi2⟩ := st₂
  simp at hd ht hb hx hp
  subst hd ht hb hx hp
  cases t
  case whitespace => rfl
  case processingInstruction =>
    exact parseFromRPI_congr _ _ rfl rfl rfl rfl rfl
  case documentType =>
    rw [dispatchTokenType, dispatchTokenType]
    by_cases h1 : d1 = DocumentState.prologWaitForXmlDeclaration
    · rw [if_pos h1, if_pos h1]
      rfl
    · rw [if_neg h1, if_neg h1]
      by_cases h2 : d1 = DocumentState.prologWaitForDocumentType
      · rw [if_pos h2, if_pos h2]
        rfl
      · rw [if_neg h2, if_neg h2]
        rfl
  case comment => rfl
  case cData =>
    rw [dispatchTokenType, dispatchTokenType]
    by_cases h1 : d1 = DocumentState.element
    · rw [if_pos h1, if_pos h1]
      rfl
    · rw [if_neg h1, if_neg h1]
      rfl
  case startOfElement => rfl
  case endOfElement =>
    rw [dispatchTokenType, dispatchTokenType]
    by_cases h1 : d1 = DocumentState.element
    · rw [if_pos h1, if_pos h1]
      rfl
    · rw [if_neg h1, if_neg h1]
      rfl
  case xmlDeclaration => rfl

/-- `parseWrapRTT ∘ execAfterWhitespace` depends only on the phase, option,
buffer and stored tokens of the reader. -/
theorem wrap_execAfterWs_congr (st₁ st₂ : XmlReader)
    (hd : st₁.documentState = st₂.documentState)
    (ht : st₁.tokenOption = st₂.tokenOption)
    (hb : st₁.buffer = st₂.buffer)
    (hx : st₁.xmlDeclaration = st₂.xmlDeclaration)
    (hp : st₁.processingInstruction = st₂.processingInstruction) :
    parseWrapRTT (execAfterWhitespace st₁) =
      parseWrapRTT (execAfterWhitespace st₂) := by
  obtain ⟨d1, p1, q1, t1, b1, x1, pi1⟩ := st₁
  obtain ⟨d2, p2, q2, t2, b2, x2, pi2⟩ := st₂
  simp at hd ht hb hx hp
  subst hd ht hb hx hp
  rw [execAfterWhitespace, execAfterWhitespace]
  simp only []
  rcases h : classifyTok true b1 with _ | _ | ⟨t, rest⟩ <;> simp only []
  · rfl
  · rfl
  · cases t
    case whitespace => rfl
    all_goals exact wrap_dispatch_congr _ rest _ _ rfl rfl rfl rfl rfl

/-- `parseFromRTT` depends only on the phase, option, buffer and stored
tokens of the reader. -/
theorem parseFromRTT_congr (st₁ st₂ : XmlReader)
    (hd : st₁.documentState = st₂.documentState)
    (ht : st₁.tokenOption = st₂.tokenOption)
    (hb : st₁.buffer = st₂.buffer)
    (hx : st₁.xmlDeclaration = st₂.xmlDeclaration)
    (hp : st₁.processingInstruction = st₂.processingInstruction) :
    parseFromRTT st₁ = parseFromRTT st₂ := by
  obtain ⟨d1, p1, q1, t1, b1, x1, pi1⟩ := st₁
  obtain ⟨d2, p2, q2, t2, b2, x2, pi2⟩ := st₂
  simp at hd ht hb hx hp
  subst hd ht hb hx hp
  rw [parseFromRTT, parseFromRTT, executeParsingStateReadingTokenType,
    executeParsingStateReadingTokenType]
  simp only []
  rcases h : classifyTok t1 b1 with _ | _ | ⟨t, rest⟩ <;> simp only []
  · rfl
  · rfl
  · cases t
    case whitespace => exact wrap_execAfterWs_congr _ _ rfl rfl rfl rfl rfl
    all_goals exact wrap_dispatch_congr _ rest _ _ rfl rfl rfl rfl rfl

@[simp] theorem writeData_buffer (st : XmlReader) (c : List Char) :
    (writeData st c).buffer = st.buffer ++ c := rfl

@[simp] theorem writeData_documentState (st : XmlReader) (c : List Char) :
    (writeData st c).documentState = st.documentState := rfl

@[simp] theorem writeData_tokenOption (st : XmlReader) (c : List Char) :
    (writeData st c).tokenOption = st.tokenOption := rfl

@[simp] theorem writeData_xmlDeclaration (st : XmlReader) (c : List Char) :
    (writeData st c).xmlDeclaration = st.xmlDeclaration := rfl

@[simp] theorem writeData_processingInstruction (st : XmlReader)
    (c : List Char) :
    (writeData st c).processingInstruction = st.processingInstruction := rfl

@[simp] theorem writeData_lastParsingResult (st : XmlReader)
    (c : List Char) :
    (writeData st c).lastParsingResult = st.lastParsingResult := rfl

/-!
Stability of a single `parse` call under buffer extension: an `Error`
result stays an error; a surfaced token stays the same token with the same
resulting reader (up to the appended data); and a `NeedMoreData` result
leaves the reader in a state from which the extended parse behaves exactly
as the extended original parse.
-/

/-- The PI arm: an error result is stable under buffer extension. -/
theorem parseFromRPI_error_ext (st : XmlReader) (c : List Char)
    (h : (parseFromRPI st).1 = .error) :
    (parseFromRPI (writeData st c)).1 = .error := by
  rcases hpi : piParse st.buffer with _ | _ | ⟨tg, dt, rest⟩ | ⟨attrs, rest⟩
  · rw [parseFromRPI, executeParsingStateReadingProcessingInstruction,
      hpi] at h
    simp [parseWrapRPI, finish] at h
  · have he := piParse_append_error st.buffer c hpi
    rw [parseFromRPI, executeParsingStateReadingProcessingInstruction,
      writeData_buffer, he]
    simp [parseWrapRPI, finish]
  · have he := piParse_append_piRead st.buffer c tg dt rest hpi
    rw [parseFromRPI, executeParsingStateReadingProcessingInstruction,
      hpi] at h
    rw [parseFromRPI, executeParsingStateReadingProcessingInstruction,
      writeData_buffer, he]
    simp only [] at h ⊢
    by_cases hv : piIsValid ⟨tg, dt⟩ = true
    · rw [if_pos hv] at h
      simp [parseWrapRPI, finish] at h
    · rw [if_neg hv] at h ⊢
      simp [parseWrapRPI, finish]
  · have he := piParse_append_xmlDeclRead st.buffer c rest attrs hpi
    rw [parseFromRPI, executeParsingStateReadingProcessingInstruction,
      hpi] at h
    rw [parseFromRPI, executeParsingStateReadingProcessingInstruction,
      writeData_buffer, he]
    simp only [writeData_documentState] at h ⊢
    by_cases hph : st.documentState = .prologWaitForXmlDeclaration
    · rw [if_pos hph] at h ⊢
      rcases hda : xmlDeclFromAttrs attrs with _ | d <;> rw [hda] at h
      · simp [parseWrapRPI, finish]
      · simp [parseWrapRPI, finish] at h
    · rw [if_neg hph] at h ⊢
      simp [parseWrapRPI, finish]

/-- The PI arm: a surfaced token is stable under buffer extension, and the
resulting reader only gains the appended data. -/
theorem parseFromRPI_token_ext (st : XmlReader) (c : List Char)
    (h : isTokenResult (parseFromRPI st).1 = true) :
    parseFromRPI (writeData st c) =
      ((parseFromRPI st).1, writeData (parseFromRPI st).2 c) := by
  rcases hpi : piParse st.buffer with _ | _ | ⟨tg, dt, rest⟩ | ⟨attrs, rest⟩
  · rw [parseFromRPI, executeParsingStateReadingProcessingInstruction,
      hpi] at h
    simp [parseWrapRPI, finish, isTokenResult] at h
  · rw [parseFromRPI, executeParsingStateReadingProcessingInstruction,
      hpi] at h
    simp [parseWrapRPI, finish, isTokenResult] at h
  · have he := piParse_append_piRead st.buffer c tg dt rest hpi
    rw [parseFromRPI, executeParsingStateReadingProcessingInstruction,
      hpi] at h
    simp only [parseFromRPI,
      executeParsingStateReadingProcessingInstruction, writeData_buffer,
      hpi, he]
    simp only [] at h
    by_cases hv : piIsValid ⟨tg, dt⟩ = true
    · simp [hv, parseWrapRPI, finish, writeData]
    · rw [if_neg hv] at h
      simp [parseWrapRPI, finish, isTokenResult] at h
  · have he := piParse_append_xmlDeclRead st.buffer c rest attrs hpi
    rw [parseFromRPI, executeParsingStateReadingProcessingInstruction,
      hpi] at h
    simp only [parseFromRPI,
      executeParsingStateReadingProcessingInstruction, writeData_buffer,
      hpi, he]
    simp only [writeData_documentState] at h ⊢
    by_cases hph : st.documentState = .prologWaitForXmlDeclaration
    · rw [if_pos hph] at h
      simp only [if_pos hph]
      rcases hda : xmlDeclFromAttrs attrs with _ | d <;> rw [hda] at h
      · simp [parseWrapRPI, finish, isTokenResult] at h
      · simp [parseWrapRPI, finish, writeData]
    · rw [if_neg hph] at h
      simp [parseWrapRPI, finish, isTokenResult] at h

/-- The PI arm: after a `NeedMoreData` result, parsing the extended reader
behaves exactly as the PI arm on the extended original reader. -/
theorem parseFromRPI_needMore_ext (st : XmlReader) (c : List Char)
    (h : (parseFromRPI st).1 = .needMoreData) :
    parse (writeData (parseFromRPI st).2 c) = parseFromRPI (writeData st c) := by
  rcases hpi : piParse st.buffer with _ | _ | ⟨tg, dt, rest⟩ | ⟨attrs, rest⟩
  · rw [parseFromRPI, executeParsingStateReadingProcessingInstruction, hpi]
    simp only [parseWrapRPI]
    rw [show parse (writeData (finish ParsingResult.needMoreData
        { st with parsingState :=
            ParsingState.readingProcessingInstruction }).2 c) =
      parseFromRPI (writeData (finish ParsingResult.needMoreData
        { st with parsingState :=
            ParsingState.readingProcessingInstruction }).2 c) from rfl]
    exact parseFromRPI_congr _ _ rfl rfl rfl rfl rfl
  · rw [parseFromRPI, executeParsingStateReadingProcessingInstruction,
      hpi] at h
    simp [parseWrapRPI, finish] at h
  · rw [parseFromRPI, executeParsingStateReadingProcessingInstruction,
      hpi] at h
    simp only [] at h
    by_cases hv : piIsValid ⟨tg, dt⟩ = true
    · rw [if_pos hv] at h
      simp [parseWrapRPI, finish] at h
    · rw [if_neg hv] at h
      simp [parseWrapRPI, finish] at h
  · rw [parseFromRPI, executeParsingStateReadingProcessingInstruction,
      hpi] at h
    simp only [] at h
    by_cases hph : st.documentState = .prologWaitForXmlDeclaration
    · rw [if_pos hph] at h
      rcases hda : xmlDeclFromAttrs attrs with _ | d <;> rw [hda] at h <;>
        simp [parseWrapRPI, finish] at h
    · rw [if_neg hph] at h
      simp [parseWrapRPI, finish] at h

/-- The PI arm: any result other than `NeedMoreData` (a surfaced token or an
error) is stable under buffer extension, and the resulting reader only gains
the appended data. -/
theorem parseFromRPI_done_ext (st : XmlReader) (c : List Char)
    (h : (parseFromRPI st).1 ≠ .needMoreData) :
    parseFromRPI (writeData st c) =
      ((parseFromRPI st).1, writeData (parseFromRPI st).2 c) := by
  rcases hpi : piParse st.buffer with _ | _ | ⟨tg, dt, rest⟩ | ⟨attrs, rest⟩
  · rw [parseFromRPI, executeParsingStateReadingProcessingInstruction,
      hpi] at h
    simp [parseWrapRPI, finish] at h
  · have he := piParse_append_error st.buffer c hpi
    simp only [parseFromRPI,
      executeParsingStateReadingProcessingInstruction, writeData_buffer,
      hpi, he]
    simp [parseWrapRPI, finish, writeData]
  · have he := piParse_append_piRead st.buffer c tg dt rest hpi
    simp only [parseFromRPI,
      executeParsingStateReadingProcessingInstruction, writeData_buffer,
      hpi, he]
    by_cases hv : piIsValid ⟨tg, dt⟩ = true
    · simp [hv, parseWrapRPI, finish, writeData]
    · simp [hv, parseWrapRPI, finish, writeData]
  · have he := piParse_append_xmlDeclRead st.buffer c rest attrs hpi
    simp only [parseFromRPI,
      executeParsingStateReadingProcessingInstruction, writeData_buffer,
      hpi, he]
    by_cases hph : st.documentState = .prologWaitForXmlDeclaration
    · simp only [writeData_documentState, if_pos hph]
      rcases hda : xmlDeclFromAttrs attrs with _ | d
      · simp [parseWrapRPI, finish, writeData]
      · simp [parseWrapRPI, finish, writeData]
    · simp only [writeData_documentState, if_neg hph]
      simp [parseWrapRPI, finish, writeData]

/-- The processing-instruction arm of the token-type dispatch continues
directly with the PI reading cycle. -/
theorem wrap_dispatch_pi (rest : List Char) (st : XmlReader) :
    parseWrapRTT (dispatchTokenType .processingInstruction rest st) =
      parseFromRPI { st with buffer := rest,
                             parsingState :=
                               .readingProcessingInstruction } := rfl

/-- Every dispatched token other than a processing instruction ends the
`parse` call with `Error`: the conditional arms reject directly, and the
accepted reading states are the unimplemented `TODO` states, which the
`parse` transition maps to its `default` (error) arm. -/
theorem wrap_dispatch_fst_error (t : TokenType) (rest : List Char)
    (st : XmlReader) (hne : t ≠ TokenType.processingInstruction) :
    (parseWrapRTT (dispatchTokenType t rest st)).1 = .error := by
  cases t with
  | processingInstruction => exact absurd rfl hne
  | documentType =>
    rw [dispatchTokenType]
    by_cases h1 : st.documentState = .prologWaitForXmlDeclaration
    · rw [if_pos h1]; rfl
    · rw [if_neg h1]
      by_cases h2 : st.documentState = .prologWaitForDocumentType
      · rw [if_pos h2]; rfl
      · rw [if_neg h2]; rfl
  | cData =>
    rw [dispatchTokenType]
    by_cases h1 : st.documentState = .element
    · rw [if_pos h1]; rfl
    · rw [if_neg h1]; rfl
  | endOfElement =>
    rw [dispatchTokenType]
    by_cases h1 : st.documentState = .element
    · rw [if_pos h1]; rfl
    · rw [if_neg h1]; rfl
  | whitespace => rfl
  | comment => rfl
  | startOfElement => rfl
  | xmlDeclaration => rfl

/-- A dispatched token other than a processing instruction gives the same
(error) outcome on the extended buffer, with the resulting reader only
gaining the appended data. -/
theorem wrap_dispatch_done_ext (t : TokenType) (rest : List Char)
    (st : XmlReader) (c : List Char)
    (hne : t ≠ TokenType.processingInstruction) :
    parseWrapRTT (dispatchTokenType t (rest ++ c) (writeData st c)) =
      ((parseWrapRTT (dispatchTokenType t rest st)).1,
        writeData (parseWrapRTT (dispatchTokenType t rest st)).2 c) := by
  cases t with
  | processingInstruction => exact absurd rfl hne
  | documentType =>
    rw [dispatchTokenType, dispatchTokenType]
    simp only [writeData_documentState]
    by_cases h1 : st.documentState = .prologWaitForXmlDeclaration
    · rw [if_pos h1, if_pos h1]; rfl
    · rw [if_neg h1, if_neg h1]
      by_cases h2 : st.documentState = .prologWaitForDocumentType
      · rw [if_pos h2, if_pos h2]; rfl
      · rw [if_neg h2, if_neg h2]; rfl
  | cData =>
    rw [dispatchTokenType, dispatchTokenType]
    simp only [writeData_documentState]
    by_cases h1 : st.documentState = .element
    · rw [if_pos h1, if_pos h1]; rfl
    · rw [if_neg h1, if_neg h1]; rfl
  | endOfElement =>
    rw [dispatchTokenType, dispatchTokenType]
    simp only [writeData_documentState]
    by_cases h1 : st.documentState = .element
    · rw [if_pos h1, if_pos h1]; rfl
    · rw [if_neg h1, if_neg h1]; rfl
  | whitespace => rfl
  | comment => rfl
  | startOfElement => rfl
  | xmlDeclaration => rfl

/-- The second cycle after a whitespace item: any non-`NeedMoreData` outcome
is stable under buffer extension, the resulting reader only gaining the
appended data. -/
theorem wrap_execAfterWs_done_ext (st : XmlReader) (c : List Char)
    (h : (parseWrapRTT (execAfterWhitespace st)).1 ≠ .needMoreData) :
    parseWrapRTT (execAfterWhitespace (writeData st c)) =
      ((parseWrapRTT (execAfterWhitespace st)).1,
        writeData (parseWrapRTT (execAfterWhitespace st)).2 c) := by
  rcases hc : classifyTok true st.buffer with _ | _ | ⟨t2, rest2⟩
  · rw [execAfterWhitespace, hc] at h
    simp [parseWrapRTT, finish] at h
  · have he := classifyTok_append_error true st.buffer c hc
    simp only [execAfterWhitespace, writeData_buffer, hc, he]
    simp [parseWrapRTT, finish, writeData]
  · have he := classifyTok_append_found true st.buffer c rest2 t2 hc
    rw [execAfterWhitespace, hc] at h
    simp only [] at h
    simp only [execAfterWhitespace, writeData_buffer, hc, he]
    cases t2 with
    | whitespace => exact absurd hc (classifyTok_true_ne_ws _ _)
    | processingInstruction =>
      rw [wrap_dispatch_pi] at h
      rw [wrap_dispatch_pi, wrap_dispatch_pi]
      exact parseFromRPI_done_ext _ c h
    | documentType =>
      exact wrap_dispatch_done_ext _ rest2 st c
        (fun hx => TokenType.noConfusion hx)
    | comment =>
      exact wrap_dispatch_done_ext _ rest2 st c
        (fun hx => TokenType.noConfusion hx)
    | cData =>
      exact wrap_dispatch_done_ext _ rest2 st c
        (fun hx => TokenType.noConfusion hx)
    | startOfElement =>
      exact wrap_dispatch_done_ext _ rest2 st c
        (fun hx => TokenType.noConfusion hx)
    | endOfElement =>
      exact wrap_dispatch_done_ext _ rest2 st c
        (fun hx => TokenType.noConfusion hx)
    | xmlDeclaration =>
      exact wrap_dispatch_done_ext _ rest2 st c
        (fun hx => TokenType.noConfusion hx)

/-- The token-type arm: any result other than `NeedMoreData` is stable under
buffer extension, and the resulting reader only gains the appended data. -/
theorem parseFromRTT_done_ext (st : XmlReader) (c : List Char)
    (h : (parseFromRTT st).1 ≠ .needMoreData) :
    parseFromRTT (writeData st c) =
      ((parseFromRTT st).1, writeData (parseFromRTT st).2 c) := by
  rcases hc : classifyTok st.tokenOption st.buffer with _ | _ | ⟨t, rest⟩
  · rw [parseFromRTT, executeParsingStateReadingTokenType, hc] at h
    simp [parseWrapRTT, finish] at h
  · have he := classifyTok_append_error st.tokenOption st.buffer c hc
    simp only [parseFromRTT, executeParsingStateReadingTokenType,
      writeData_buffer, writeData_tokenOption, hc, he]
    simp [parseWrapRTT, finish, writeData]
  · have he := classifyTok_append_found st.tokenOption st.buffer c rest t hc
    rw [parseFromRTT, executeParsingStateReadingTokenType, hc] at h
    simp only [] at h
    simp only [parseFromRTT, executeParsingStateReadingTokenType,
      writeData_buffer, writeData_tokenOption, writeData_documentState,
      hc, he]
    cases t with
    | whitespace =>
      exact wrap_execAfterWs_done_ext
        { st with documentState := downgradePhase st.documentState,
                  tokenOption := true } c h
    | processingInstruction =>
      rw [wrap_dispatch_pi] at h
      rw [wrap_dispatch_pi, wrap_dispatch_pi]
      exact parseFromRPI_done_ext _ c h
    | documentType =>
      exact wrap_dispatch_done_ext _ rest st c
        (fun hx => TokenType.noConfusion hx)
    | comment =>
      exact wrap_dispatch_done_ext _ rest st c
        (fun hx => TokenType.noConfusion hx)
    | cData =>
      exact wrap_dispatch_done_ext _ rest st c
        (fun hx => TokenType.noConfusion hx)
    | startOfElement =>
      exact wrap_dispatch_done_ext _ rest st c
        (fun hx => TokenType.noConfusion hx)
    | endOfElement =>
      exact wrap_dispatch_done_ext _ rest st c
        (fun hx => TokenType.noConfusion hx)
    | xmlDeclaration =>
      exact wrap_dispatch_done_ext _ rest st c
        (fun hx => TokenType.noConfusion hx)

/-- A reader whose parsing state is `ReadingTokenType` enters the
token-type arm of `parse`. -/
theorem parse_rtt_entry (st : XmlReader)
    (h : st.parsingState = .readingTokenType) :
    parse st = parseFromRTT st := by
  simp [parse, h]

/-- A reader whose parsing state is `ReadingProcessingInstruction` enters
the PI arm of `parse`. -/
theorem parse_rpi_entry (st : XmlReader)
    (h : st.parsingState = .readingProcessingInstruction) :
    parse st = parseFromRPI st := by
  simp [parse, h]

/-- With the ignore-whitespace option set, a fresh token-type cycle behaves
exactly like the second (after-whitespace) cycle on any reader that agrees
on the phase, buffer and stored tokens: the whitespace arm is unreachable in
both. -/
theorem wrapRTT_true_eq_afterWs (stA stB : XmlReader)
    (hA : stA.tokenOption = true) (hB : stB.tokenOption = true)
    (hd : stA.documentState = stB.documentState)
    (hb : stA.buffer = stB.buffer)
    (hx : stA.xmlDeclaration = stB.xmlDeclaration)
    (hp : stA.processingInstruction = stB.processingInstruction) :
    parseFromRTT stA = parseWrapRTT (execAfterWhitespace stB) := by
  obtain ⟨d1, p1, q1, t1, b1, x1, pi1⟩ := stA
  obtain ⟨d2, p2, q2, t2, b2, x2, pi2⟩ := stB
  simp at hA hB hd hb hx hp
  subst hA hB hd hb hx hp
  rw [execAfterWhitespace, parseFromRTT,
    executeParsingStateReadingTokenType]
  simp only []
  rcases hcl : classifyTok true b1 with _ | _ | ⟨t, rest⟩ <;> simp only []
  · rfl
  · rfl
  · cases t
    case whitespace => exact absurd hcl (classifyTok_true_ne_ws _ _)
    all_goals exact wrap_dispatch_congr _ rest _ _ rfl rfl rfl rfl rfl

/-- The second cycle after a whitespace item: after a `NeedMoreData` result,
parsing the extended reader behaves exactly as the second cycle on the
extended original reader. -/
theorem wrap_execAfterWs_needMore_ext (st1 : XmlReader) (c : List Char)
    (h1 : st1.tokenOption = true)
    (h : (parseWrapRTT (execAfterWhitespace st1)).1 = .needMoreData) :
    parse (writeData (parseWrapRTT (execAfterWhitespace st1)).2 c) =
      parseWrapRTT (execAfterWhitespace (writeData st1 c)) := by
  rcases hc2 : classifyTok true st1.buffer with _ | _ | ⟨t2, rest2⟩
  · have h2 : (parseWrapRTT (execAfterWhitespace st1)).2 =
        { st1 with parsingState := .readingTokenType,
                   lastParsingResult := .needMoreData } := by
      rw [execAfterWhitespace, hc2]
      rfl
    rw [h2, parse_rtt_entry _ rfl]
    exact wrapRTT_true_eq_afterWs _ _ (by simp [h1]) (by simp [h1])
      (by simp) (by simp) (by simp) (by simp)
  · rw [execAfterWhitespace, hc2] at h
    simp [parseWrapRTT, finish] at h
  · cases t2 with
    | whitespace => exact absurd hc2 (classifyTok_true_ne_ws _ _)
    | processingInstruction =>
      have he2 := classifyTok_append_found true st1.buffer c rest2
        .processingInstruction hc2
      rw [execAfterWhitespace, hc2] at h
      simp only [] at h
      rw [wrap_dispatch_pi] at h
      have h2 : (parseWrapRTT (execAfterWhitespace st1)).2 =
          (parseFromRPI { st1 with
            buffer := rest2,
            parsingState := .readingProcessingInstruction }).2 := by
        rw [execAfterWhitespace, hc2]
        simp only []
        rw [wrap_dispatch_pi]
      rw [h2]
      simp only [execAfterWhitespace, writeData_buffer, he2]
      rw [wrap_dispatch_pi]
      exact parseFromRPI_needMore_ext _ c h
    | documentType =>
      rw [execAfterWhitespace, hc2] at h
      simp only [] at h
      rw [wrap_dispatch_fst_error _ rest2 st1
        (fun hx => TokenType.noConfusion hx)] at h
      exact ParsingResult.noConfusion h
    | comment =>
      rw [execAfterWhitespace, hc2] at h
      simp only [] at h
      rw [wrap_dispatch_fst_error _ rest2 st1
        (fun hx => TokenType.noConfusion hx)] at h
      exact ParsingResult.noConfusion h
    | cData =>
      rw [execAfterWhitespace, hc2] at h
      simp only [] at h
      rw [wrap_dispatch_fst_error _ rest2 st1
        (fun hx => TokenType.noConfusion hx)] at h
      exact ParsingResult.noConfusion h
    | startOfElement =>
      rw [execAfterWhitespace, hc2] at h
      simp only [] at h
      rw [wrap_dispatch_fst_error _ rest2 st1
        (fun hx => TokenType.noConfusion hx)] at h
      exact ParsingResult.noConfusion h
    | endOfElement =>
      rw [execAfterWhitespace, hc2] at h
      simp only [] at h
      rw [wrap_dispatch_fst_error _ rest2 st1
        (fun hx => TokenType.noConfusion hx)] at h
      exact ParsingResult.noConfusion h
    | xmlDeclaration =>
      rw [execAfterWhitespace, hc2] at h
      simp only [] at h
      rw [wrap_dispatch_fst_error _ rest2 st1
        (fun hx => TokenType.noConfusion hx)] at h
      exact ParsingResult.noConfusion h

/-- The token-type arm: after a `NeedMoreData` result, parsing the extended
reader behaves exactly as the token-type arm on the extended original
reader. -/
theorem parseFromRTT_needMore_ext (st : XmlReader) (c : List Char)
    (h : (parseFromRTT st).1 = .needMoreData) :
    parse (writeData (parseFromRTT st).2 c) =
      parseFromRTT (writeData st c) := by
  rcases hc : classifyTok st.tokenOption st.buffer with _ | _ | ⟨t, rest⟩
  · have h2 : (parseFromRTT st).2 =
        { st with parsingState := .readingTokenType,
                  lastParsingResult := .needMoreData } := by
      rw [parseFromRTT, executeParsingStateReadingTokenType, hc]
      rfl
    rw [h2, parse_rtt_entry _ rfl]
    exact parseFromRTT_congr _ _ rfl rfl rfl rfl rfl
  · rw [parseFromRTT, executeParsingStateReadingTokenType, hc] at h
    simp [parseWrapRTT, finish] at h
  · cases t with
    | whitespace =>
      rw [parseFromRTT, executeParsingStateReadingTokenType, hc] at h
      simp only [] at h
      have h2 : (parseFromRTT st).2 =
          (parseWrapRTT (execAfterWhitespace
            { st with documentState := downgradePhase st.documentState,
                      tokenOption := true })).2 := by
        rw [parseFromRTT, executeParsingStateReadingTokenType, hc]
      rw [h2]
      have he := classifyTok_append_found st.tokenOption st.buffer c rest
        .whitespace hc
      simp only [parseFromRTT, executeParsingStateReadingTokenType,
        writeData_buffer, writeData_tokenOption, writeData_documentState,
        he]
      exact wrap_execAfterWs_needMore_ext
        { st with documentState := downgradePhase st.documentState,
                  tokenOption := true } c rfl h
    | processingInstruction =>
      rw [parseFromRTT, executeParsingStateReadingTokenType, hc] at h
      simp only [] at h
      rw [wrap_dispatch_pi] at h
      have h2 : (parseFromRTT st).2 =
          (parseFromRPI { st with
            buffer := rest,
            parsingState := .readingProcessingInstruction }).2 := by
        rw [parseFromRTT, executeParsingStateReadingTokenType, hc]
        simp only []
        rw [wrap_dispatch_pi]
      rw [h2]
      have he := classifyTok_append_found st.tokenOption st.buffer c rest
        .processingInstruction hc
      simp only [parseFromRTT, executeParsingStateReadingTokenType,
        writeData_buffer, writeData_tokenOption, he]
      rw [wrap_dispatch_pi]
      exact parseFromRPI_needMore_ext _ c h
    | documentType =>
      rw [parseFromRTT, executeParsingStateReadingTokenType, hc] at h
      simp only [] at h
      rw [wrap_dispatch_fst_error _ rest st
        (fun hx => TokenType.noConfusion hx)] at h
      exact ParsingResult.noConfusion h
    | comment =>
      rw [parseFromRTT, executeParsingStateReadingTokenType, hc] at h
      simp only [] at h
      rw [wrap_dispatch_fst_error _ rest st
        (fun hx => TokenType.noConfusion hx)] at h
      exact ParsingResult.noConfusion h
    | cData =>
      rw [parseFromRTT, executeParsingStateReadingTokenType, hc] at h
      simp only [] at h
      rw [wrap_dispatch_fst_error _ rest st
        (fun hx => TokenType.noConfusion hx)] at h
      exact ParsingResult.noConfusion h
    | startOfElement =>
      rw [parseFromRTT, executeParsingStateReadingTokenType, hc] at h
      simp only [] at h
      rw [wrap_dispatch_fst_error _ rest st
        (fun hx => TokenType.noConfusion hx)] at h
      exact ParsingResult.noConfusion h
    | endOfElement =>
      rw [parseFromRTT, executeParsingStateReadingTokenType, hc] at h
      simp only [] at h
      rw [wrap_dispatch_fst_error _ rest st
        (fun hx => TokenType.noConfusion hx)] at h
      exact ParsingResult.noConfusion h
    | xmlDeclaration =>
      rw [parseFromRTT, executeParsingStateReadingTokenType, hc] at h
      simp only [] at h
      rw [wrap_dispatch_fst_error _ rest st
        (fun hx => TokenType.noConfusion hx)] at h
      exact ParsingResult.noConfusion h

/-- A surfaced token from the PI arm strictly consumes buffered data. -/
theorem parseFromRPI_shrinks (st : XmlReader)
    (h : isTokenResult (parseFromRPI st).1 = true) :
    ((parseFromRPI st).2).buffer.length < st.buffer.length := by
  rcases hpi : piParse st.buffer with _ | _ | ⟨tg, dt, rest⟩ | ⟨attrs, rest⟩
  · rw [parseFromRPI, executeParsingStateReadingProcessingInstruction,
      hpi] at h
    simp [parseWrapRPI, finish, isTokenResult] at h
  · rw [parseFromRPI, executeParsingStateReadingProcessingInstruction,
      hpi] at h
    simp [parseWrapRPI, finish, isTokenResult] at h
  · simp only [parseFromRPI,
      executeParsingStateReadingProcessingInstruction, hpi] at h ⊢
    by_cases hv : piIsValid ⟨tg, dt⟩ = true
    · simp only [if_pos hv] at h ⊢
      simp [parseWrapRPI, finish]
      exact piParse_piRead_length st.buffer tg dt rest hpi
    · simp [hv, parseWrapRPI, finish, isTokenResult] at h
  · simp only [parseFromRPI,
      executeParsingStateReadingProcessingInstruction, hpi] at h ⊢
    by_cases hph : st.documentState = .prologWaitForXmlDeclaration
    · simp only [if_pos hph] at h ⊢
      rcases hda : xmlDeclFromAttrs attrs with _ | d <;> rw [hda] at h
      · simp [parseWrapRPI, finish, isTokenResult] at h
      · simp [parseWrapRPI, finish]
        exact piParse_xmlDeclRead_length st.buffer rest attrs hpi
    · simp [hph, parseWrapRPI, finish, isTokenResult] at h

/-- A surfaced token from the token-type arm strictly consumes buffered
data. -/
theorem parseFromRTT_shrinks (st : XmlReader)
    (h : isTokenResult (parseFromRTT st).1 = true) :
    ((parseFromRTT st).2).buffer.length < st.buffer.length := by
  rcases hc : classifyTok st.tokenOption st.buffer with _ | _ | ⟨t, rest⟩
  · rw [parseFromRTT, executeParsingStateReadingTokenType, hc] at h
    simp [parseWrapRTT, finish, isTokenResult] at h
  · rw [parseFromRTT, executeParsingStateReadingTokenType, hc] at h
    simp [parseWrapRTT, finish, isTokenResult] at h
  · simp only [parseFromRTT, executeParsingStateReadingTokenType, hc]
      at h ⊢
    cases t with
    | whitespace =>
      simp only [] at h ⊢
      rcases hc2 : classifyTok true st.buffer with _ | _ | ⟨t2, rest2⟩
      · rw [execAfterWhitespace] at h ⊢
        rw [show ({ st with
            documentState := downgradePhase st.documentState,
            tokenOption := true } : XmlReader).buffer = st.buffer
          from rfl, hc2] at h ⊢
        simp [parseWrapRTT, finish, isTokenResult] at h
      · rw [execAfterWhitespace] at h ⊢
        rw [show ({ st with
            documentState := downgradePhase st.documentState,
            tokenOption := true } : XmlReader).buffer = st.buffer
          from rfl, hc2] at h ⊢
        simp [parseWrapRTT, finish, isTokenResult] at h
      · rw [execAfterWhitespace] at h ⊢
        rw [show ({ st with
            documentState := downgradePhase st.documentState,
            tokenOption := true } : XmlReader).buffer = st.buffer
          from rfl, hc2] at h ⊢
        simp only [] at h ⊢
        cases t2 with
        | whitespace => exact absurd hc2 (classifyTok_true_ne_ws _ _)
        | processingInstruction =>
          rw [wrap_dispatch_pi] at h ⊢
          have hlt := parseFromRPI_shrinks _ h
          have hlt2 := classifyTok_pi_length true st.buffer rest2 hc2
          exact lt_trans (lt_of_lt_of_le hlt (le_of_eq rfl)) hlt2
        | documentType =>
          rw [wrap_dispatch_fst_error _ rest2 _
            (fun hx => TokenType.noConfusion hx)] at h
          simp [isTokenResult] at h
        | comment =>
          rw [wrap_dispatch_fst_error _ rest2 _
            (fun hx => TokenType.noConfusion hx)] at h
          simp [isTokenResult] at h
        | cData =>
          rw [wrap_dispatch_fst_error _ rest2 _
            (fun hx => TokenType.noConfusion hx)] at h
          simp [isTokenResult] at h
        | startOfElement =>
          rw [wrap_dispatch_fst_error _ rest2 _
            (fun hx => TokenType.noConfusion hx)] at h
          simp [isTokenResult] at h
        | endOfElement =>
          rw [wrap_dispatch_fst_error _ rest2 _
            (fun hx => TokenType.noConfusion hx)] at h
          simp [isTokenResult] at h
        | xmlDeclaration =>
          rw [wrap_dispatch_fst_error _ rest2 _
            (fun hx => TokenType.noConfusion hx)] at h
          simp [isTokenResult] at h
    | processingInstruction =>
      simp only [] at h ⊢
      rw [wrap_dispatch_pi] at h ⊢
      have hlt := parseFromRPI_shrinks _ h
      have hlt2 := classifyTok_pi_length st.tokenOption st.buffer rest hc
      exact lt_trans hlt hlt2
    | documentType =>
      simp only [] at h
      rw [wrap_dispatch_fst_error _ rest _
        (fun hx => TokenType.noConfusion hx)] at h
      simp [isTokenResult] at h
    | comment =>
      simp only [] at h
      rw [wrap_dispatch_fst_error _ rest _
        (fun hx => TokenType.noConfusion hx)] at h
      simp [isTokenResult] at h
    | cData =>
      simp only [] at h
      rw [wrap_dispatch_fst_error _ rest _
        (fun hx => TokenType.noConfusion hx)] at h
      simp [isTokenResult] at h
    | startOfElement =>
      simp only [] at h
      rw [wrap_dispatch_fst_error _ rest _
        (fun hx => TokenType.noConfusion hx)] at h
      simp [isTokenResult] at h
    | endOfElement =>
      simp only [] at h
      rw [wrap_dispatch_fst_error _ rest _
        (fun hx => TokenType.noConfusion hx)] at h
      simp [isTokenResult] at h
    | xmlDeclaration =>
      simp only [] at h
      rw [wrap_dispatch_fst_error _ rest _
        (fun hx => TokenType.noConfusion hx)] at h
      simp [isTokenResult] at h

/-- `parse`: any result other than `NeedMoreData` is stable under buffer
extension, and the resulting reader only gains the appended data. -/
theorem parse_done_ext (st : XmlReader) (c : List Char)
    (h : (parse st).1 ≠ .needMoreData) :
    parse (writeData st c) = ((parse st).1, writeData (parse st).2 c) := by
  cases hps : st.parsingState with
  | idle =>
    simp only [parse, writeData_parsingState, hps] at h ⊢
    exact parseFromRTT_done_ext
      { st with documentState := .prologWaitForXmlDeclaration,
                tokenOption := false,
                parsingState := .readingTokenType } c h
  | readingTokenType =>
    simp only [parse, writeData_parsingState, hps] at h ⊢
    exact parseFromRTT_done_ext st c h
  | readingProcessingInstruction =>
    simp only [parse, writeData_parsingState, hps] at h ⊢
    exact parseFromRPI_done_ext st c h
  | processingInstructionRead =>
    simp only [parse, writeData_parsingState, hps] at h ⊢
    exact parseFromRTT_done_ext
      { st with tokenOption := true,
                parsingState := .readingTokenType } c h
  | xmlDeclarationRead =>
    simp only [parse, writeData_parsingState, hps] at h ⊢
    exact parseFromRTT_done_ext
      { st with tokenOption := true,
                parsingState := .readingTokenType } c h
  | readingDocumentType =>
    simp only [parse, writeData_parsingState, hps]
    rfl
  | readingComment =>
    simp only [parse, writeData_parsingState, hps]
    rfl
  | readingCData =>
    simp only [parse, writeData_parsingState, hps]
    rfl
  | readingStartOfElement =>
    simp only [parse, writeData_parsingState, hps]
    rfl
  | readingEndOfElement =>
    simp only [parse, writeData_parsingState, hps]
    rfl
  | error =>
    simp only [parse, writeData_parsingState, hps]
    rfl

/-- `parse`: after a `NeedMoreData` result, parsing after appending more
data behaves exactly as parsing the original reader extended with that
data. -/
theorem parse_needMore_ext (st : XmlReader) (c : List Char)
    (h : (parse st).1 = .needMoreData) :
    parse (writeData (parse st).2 c) = parse (writeData st c) := by
  cases hps : st.parsingState with
  | idle =>
    have hp1 : parse st = parseFromRTT
        { st with documentState := .prologWaitForXmlDeclaration,
                  tokenOption := false,
                  parsingState := .readingTokenType } := by
      simp only [parse, hps]
    have hp2 : parse (writeData st c) = parseFromRTT
        (writeData
          { st with documentState := .prologWaitForXmlDeclaration,
                    tokenOption := false,
                    parsingState := .readingTokenType } c) := by
      simp only [parse, writeData_parsingState, hps]
      rfl
    rw [hp1] at h
    rw [hp1, hp2]
    exact parseFromRTT_needMore_ext _ c h
  | readingTokenType =>
    rw [parse_rtt_entry st hps] at h
    rw [parse_rtt_entry st hps,
      parse_rtt_entry _ ((writeData_parsingState st c).trans hps)]
    exact parseFromRTT_needMore_ext st c h
  | readingProcessingInstruction =>
    rw [parse_rpi_entry st hps] at h
    rw [parse_rpi_entry st hps,
      parse_rpi_entry _ ((writeData_parsingState st c).trans hps)]
    exact parseFromRPI_needMore_ext st c h
  | processingInstructionRead =>
    have hp1 : parse st = parseFromRTT
        { st with tokenOption := true,
                  parsingState := .readingTokenType } := by
      simp only [parse, hps]
    have hp2 : parse (writeData st c) = parseFromRTT
        (writeData { st with tokenOption := true,
                             parsingState := .readingTokenType } c) := by
      simp only [parse, writeData_parsingState, hps]
      rfl
    rw [hp1] at h
    rw [hp1, hp2]
    exact parseFromRTT_needMore_ext _ c h
  | xmlDeclarationRead =>
    have hp1 : parse st = parseFromRTT
        { st with tokenOption := true,
                  parsingState := .readingTokenType } := by
      simp only [parse, hps]
    have hp2 : parse (writeData st c) = parseFromRTT
        (writeData { st with tokenOption := true,
                             parsingState := .readingTokenType } c) := by
      simp only [parse, writeData_parsingState, hps]
      rfl
    rw [hp1] at h
    rw [hp1, hp2]
    exact parseFromRTT_needMore_ext _ c h
  | readingDocumentType => simp [parse, hps, finish] at h
  | readingComment => simp [parse, hps, finish] at h
  | readingCData => simp [parse, hps, finish] at h
  | readingStartOfElement => simp [parse, hps, finish] at h
  | readingEndOfElement => simp [parse, hps, finish] at h
  | error => simp [parse, hps, finish] at h

/-- `parse`: a surfaced token strictly consumes buffered data. -/
theorem parse_shrinks (st : XmlReader)
    (h : isTokenResult (parse st).1 = true) :
    ((parse st).2).buffer.length < st.buffer.length := by
  cases hps : st.parsingState with
  | idle =>
    simp only [parse, hps] at h ⊢
    exact parseFromRTT_shrinks _ h
  | readingTokenType =>
    simp only [parse, hps] at h ⊢
    exact parseFromRTT_shrinks st h
  | readingProcessingInstruction =>
    simp only [parse, hps] at h ⊢
    exact parseFromRPI_shrinks st h
  | processingInstructionRead =>
    simp only [parse, hps] at h ⊢
    exact parseFromRTT_shrinks _ h
  | xmlDeclarationRead =>
    simp only [parse, hps] at h ⊢
    exact parseFromRTT_shrinks _ h
  | readingDocumentType => simp [parse, hps, finish, isTokenResult] at h
  | readingComment => simp [parse, hps, finish, isTokenResult] at h
  | readingCData => simp [parse, hps, finish, isTokenResult] at h
  | readingStartOfElement => simp [parse, hps, finish, isTokenResult] at h
  | readingEndOfElement => simp [parse, hps, finish, isTokenResult] at h
  | error => simp [parse, hps, finish, isTokenResult] at h

/-- The PI-arm transition never reports `ParsingResult_None`. -/
theorem parseWrapRPI_fst_ne_none (p : ParsingState × XmlReader) :
    (parseWrapRPI p).1 ≠ .none := by
  rcases p with ⟨ps, s⟩
  cases ps <;> simp [parseWrapRPI, finish]

/-- The token-type-arm transition never reports `ParsingResult_None`. -/
theorem parseWrapRTT_fst_ne_none (p : ParsingState × XmlReader) :
    (parseWrapRTT p).1 ≠ .none := by
  rcases p with ⟨ps, s⟩
  cases ps
  case readingProcessingInstruction => exact parseWrapRPI_fst_ne_none _
  all_goals simp [parseWrapRTT, finish]

/-- `parse` never returns `ParsingResult_None`: every path stores an
explicit result. -/
theorem parse_fst_ne_none (st : XmlReader) : (parse st).1 ≠ .none := by
  cases hps : st.parsingState with
  | idle =>
    simp only [parse, hps]
    exact parseWrapRTT_fst_ne_none _
  | readingTokenType =>
    simp only [parse, hps]
    exact parseWrapRTT_fst_ne_none _
  | readingProcessingInstruction =>
    simp only [parse, hps]
    exact parseWrapRPI_fst_ne_none _
  | processingInstructionRead =>
    simp only [parse, hps]
    exact parseWrapRTT_fst_ne_none _
  | xmlDeclarationRead =>
    simp only [parse, hps]
    exact parseWrapRTT_fst_ne_none _
  | readingDocumentType => simp [parse, hps, finish]
  | readingComment => simp [parse, hps, finish]
  | readingCData => simp [parse, hps, finish]
  | readingStartOfElement => simp [parse, hps, finish]
  | readingEndOfElement => simp [parse, hps, finish]
  | error => simp [parse, hps, finish]

/-- The PI-arm transition records its result as the last parsing result. -/
theorem parseWrapRPI_lastResult (p : ParsingState × XmlReader) :
    ((parseWrapRPI p).2).lastParsingResult = (parseWrapRPI p).1 := by
  rcases p with ⟨ps, s⟩
  cases ps <;> rfl

/-- The token-type-arm transition records its result as the last parsing
result. -/
theorem parseWrapRTT_lastResult (p : ParsingState × XmlReader) :
    ((parseWrapRTT p).2).lastParsingResult = (parseWrapRTT p).1 := by
  rcases p with ⟨ps, s⟩
  cases ps
  case readingProcessingInstruction => exact parseWrapRPI_lastResult _
  all_goals rfl

/-- Every `parse` call stores its result in `m_lastParsingResult`. -/
theorem parse_lastResult (st : XmlReader) :
    ((parse st).2).lastParsingResult = (parse st).1 := by
  cases hps : st.parsingState with
  | idle =>
    simp only [parse, hps]
    exact parseWrapRTT_lastResult _
  | readingTokenType =>
    simp only [parse, hps]
    exact parseWrapRTT_lastResult _
  | readingProcessingInstruction =>
    simp only [parse, hps]
    exact parseWrapRPI_lastResult _
  | processingInstructionRead =>
    simp only [parse, hps]
    exact parseWrapRTT_lastResult _
  | xmlDeclarationRead =>
    simp only [parse, hps]
    exact parseWrapRTT_lastResult _
  | readingDocumentType => simp [parse, hps, finish]
  | readingComment => simp [parse, hps, finish]
  | readingCData => simp [parse, hps, finish]
  | readingStartOfElement => simp [parse, hps, finish]
  | readingEndOfElement => simp [parse, hps, finish]
  | error => simp [parse, hps, finish]

/-- Re-latching a reader that is already latched changes nothing. -/
theorem reader_latched_update_id (s : XmlReader)
    (h1 : s.parsingState = .error) (h2 : s.lastParsingResult = .error) :
    ({ s with parsingState := .error,
              lastParsingResult := .error } : XmlReader) = s := by
  obtain ⟨d, p, q, t, b, x, pi⟩ := s
  simp at h1 h2
  subst h1 h2
  rfl

/-- One unfolding of the parse-until loop, in projection form. -/
theorem parseUntilAux_succ (fuel : Nat) (st : XmlReader) :
    parseUntilAux (fuel + 1) st =
      if isTokenResult (parse st).1 = true then
        ((parse st).1 :: (parseUntilAux fuel (parse st).2).1,
          (parseUntilAux fuel (parse st).2).2)
      else ([(parse st).1], (parse st).2) := by
  rw [parseUntilAux]

/-- Any sufficient fuel computes the same parse-until loop: each surfaced
token strictly consumes buffered data, so `buffer.length + 1` calls always
reach a non-token result. -/
theorem parseUntilAux_fuel_eq : ∀ (f1 f2 : Nat) (st : XmlReader),
    st.buffer.length < f1 → st.buffer.length < f2 →
    parseUntilAux f1 st = parseUntilAux f2 st := by
  intro f1
  induction f1 with
  | zero =>
    intro f2 st h1 _
    exact absurd h1 (Nat.not_lt_zero _)
  | succ a ih =>
    intro f2 st h1 h2
    cases f2 with
    | zero => exact absurd h2 (Nat.not_lt_zero _)
    | succ b =>
      rw [parseUntilAux_succ, parseUntilAux_succ]
      by_cases ht : isTokenResult (parse st).1 = true
      · rw [if_pos ht, if_pos ht]
        have hs := parse_shrinks st ht
        rw [ih b (parse st).2 (by omega) (by omega)]
      · rw [if_neg ht, if_neg ht]

/-- Two readers on which `parse` agrees run the same parse-until loop under
any sufficient fuel. -/
theorem parseUntilAux_congr_parse (stA stB : XmlReader) (fA fB : Nat)
    (hpar : parse stA = parse stB)
    (hA : stA.buffer.length < fA) (hB : stB.buffer.length < fB) :
    parseUntilAux fA stA = parseUntilAux fB stB := by
  cases fA with
  | zero => exact absurd hA (Nat.not_lt_zero _)
  | succ a =>
    cases fB with
    | zero => exact absurd hB (Nat.not_lt_zero _)
    | succ b =>
      rw [parseUntilAux_succ, parseUntilAux_succ, hpar]
      by_cases ht : isTokenResult (parse stB).1 = true
      · rw [if_pos ht, if_pos ht]
        have hsB := parse_shrinks stB ht
        have hsA := parse_shrinks stA (by rw [hpar]; exact ht)
        rw [hpar] at hsA
        rw [parseUntilAux_fuel_eq a b (parse stB).2 (by omega) (by omega)]
      · rw [if_neg ht, if_neg ht]

/-- Chunk merge: running the parse loop on a reader, feeding more data and
running it again surfaces exactly the tokens of the single loop on the
reader extended with that data, and both runs end in the same reader. -/
theorem parseUntilAux_merge : ∀ (f : Nat) (st : XmlReader) (c : List Char),
    st.buffer.length < f →
    ((parseUntilAux (f + c.length) (writeData st c)).1.filter
        (fun r => isTokenResult r) =
      (parseUntilAux f st).1.filter (fun r => isTokenResult r) ++
        (parseLoop (writeData (parseUntilAux f st).2 c)).1.filter
          (fun r => isTokenResult r)) ∧
    (parseUntilAux (f + c.length) (writeData st c)).2 =
      (parseLoop (writeData (parseUntilAux f st).2 c)).2 := by
  intro f
  induction f with
  | zero =>
    intro st c h
    exact absurd h (Nat.not_lt_zero _)
  | succ a ih =>
    intro st c h
    by_cases ht : isTokenResult (parse st).1 = true
    · have hne : (parse st).1 ≠ ParsingResult.needMoreData := by
        intro hr
        rw [hr] at ht
        simp [isTokenResult] at ht
      have hdone := parse_done_ext st c hne
      have hshr := parse_shrinks st ht
      obtain ⟨ih1, ih2⟩ := ih (parse st).2 c (by omega)
      have hfa : a + 1 + c.length = (a + c.length) + 1 := by omega
      rw [hfa, parseUntilAux_succ, parseUntilAux_succ, hdone]
      simp only []
      rw [if_pos ht, if_pos ht]
      constructor
      · simp [List.filter_cons, ht, ih1]
      · exact ih2
    · by_cases hnd : (parse st).1 = ParsingResult.needMoreData
      · have hpar := parse_needMore_ext st c hnd
        have hcongr := parseUntilAux_congr_parse (writeData st c)
          (writeData (parse st).2 c) (a + 1 + c.length)
          ((writeData (parse st).2 c).buffer.length + 1) hpar.symm
          (by simp only [writeData_buffer, List.length_append]; omega)
          (Nat.lt_succ_self _)
        rw [parseUntilAux_succ]
        rw [if_neg ht]
        simp only []
        constructor
        · rw [hcongr]
          simp [parseLoop, hnd, isTokenResult]
        · rw [hcongr]
          rfl
      · have herr : (parse st).1 = ParsingResult.error := by
          rcases hr : (parse st).1
          · exact absurd hr (parse_fst_ne_none st)
          · exact absurd hr hnd
          · rw [hr] at ht
            simp [isTokenResult] at ht
          · rw [hr] at ht
            simp [isTokenResult] at ht
          · rfl
        have hdone := parse_done_ext st c (by
          rw [herr]
          intro hx
          exact ParsingResult.noConfusion hx)
        have hlat : ((parse st).2).parsingState = .error :=
          (parse_error_iff st).mp herr
        have hlpr : ((parse st).2).lastParsingResult = .error := by
          rw [parse_lastResult]
          exact herr
        have hlat2 := parse_latched (writeData (parse st).2 c)
          (by rw [writeData_parsingState]; exact hlat)
        have hid := reader_latched_update_id (writeData (parse st).2 c)
          (by rw [writeData_parsingState]; exact hlat)
          (by rw [writeData_lastParsingResult]; exact hlpr)
        have hloop2 : parseLoop (writeData (parse st).2 c) =
            ([ParsingResult.error], writeData (parse st).2 c) := by
          rw [parseLoop, parseUntilAux_succ, hlat2]
          simp only []
          rw [if_neg (by simp [isTokenResult])]
          rw [hid]
        have hfa : a + 1 + c.length = (a + c.length) + 1 := by omega
        rw [hfa, parseUntilAux_succ, parseUntilAux_succ, hdone]
        simp only []
        rw [if_neg ht, if_neg ht]
        rw [hloop2]
        constructor
        · simp [herr, isTokenResult]
        · rfl

/-- Writing two batches of data in sequence buffers their concatenation. -/
theorem writeData_writeData (st : XmlReader) (b c : List Char) :
    writeData (writeData st b) c = writeData st (b ++ c) := by
  simp [writeData, List.append_assoc]

/-- One unfolding of the chunk feeder, in projection form. -/
theorem feedChunks_cons (b : List Char) (bs : List (List Char))
    (st : XmlReader) :
    feedChunks (b :: bs) st =
      ((parseLoop (writeData st b)).1 ++
        (feedChunks bs (parseLoop (writeData st b)).2).1,
      (feedChunks bs (parseLoop (writeData st b)).2).2) := by
  rw [feedChunks]

/-- Feeding a non-empty chunk list surfaces exactly the tokens of feeding
its concatenation at once, and ends in the same reader. -/
theorem feedChunks_flatten_filter : ∀ (bs : List (List Char)) (b : List Char)
    (st : XmlReader),
    ((feedChunks (b :: bs) st).1.filter (fun r => isTokenResult r) =
      (parseLoop (writeData st (b :: bs).flatten)).1.filter
        (fun r => isTokenResult r)) ∧
    (feedChunks (b :: bs) st).2 =
      (parseLoop (writeData st (b :: bs).flatten)).2 := by
  intro bs
  induction bs with
  | nil =>
    intro b st
    rw [feedChunks_cons]
    simp [feedChunks, List.flatten]
  | cons b2 bs2 ih =>
    intro b st
    rw [feedChunks_cons]
    obtain ⟨ih1, ih2⟩ := ih b2 (parseLoop (writeData st b)).2
    obtain ⟨hm1, hm2⟩ := parseUntilAux_merge
      ((writeData st b).buffer.length + 1) (writeData st b)
      ((b2 :: bs2).flatten) (Nat.lt_succ_self _)
    rw [show parseUntilAux ((writeData st b).buffer.length + 1)
        (writeData st b) = parseLoop (writeData st b) from rfl] at hm1 hm2
    have hbig : parseUntilAux ((writeData st b).buffer.length + 1 +
          ((b2 :: bs2).flatten).length)
          (writeData (writeData st b) ((b2 :: bs2).flatten)) =
        parseLoop (writeData st ((b :: b2 :: bs2).flatten)) := by
      rw [writeData_writeData, show (b :: b2 :: bs2).flatten =
        b ++ (b2 :: bs2).flatten from rfl, parseLoop]
      exact parseUntilAux_fuel_eq _ _ _
        (by simp only [writeData_buffer, List.length_append]; omega)
        (Nat.lt_succ_self _)
    rw [hbig] at hm1 hm2
    constructor
    · simp only [List.filter_append, ih1]
      rw [hm1]
    · rw [ih2, hm2]

end EmbeddedStAX

open EmbeddedStAX in
/-- C1: chunking invariance — for every document and every partition of it
into chunks, feeding the chunks one at a time via `writeData` and calling
`parse` until `NeedMoreData` or a terminal result produces exactly the same
ordered token stream as feeding the whole document in a single `writeData`
call. -/
theorem C1_chunking_invariance (chunks : List (List Char)) :
    tokenStream chunks = tokenStream [chunks.flatten] := by
  cases chunks with
  | nil => rfl
  | cons b bs =>
    obtain ⟨h1, _⟩ := feedChunks_flatten_filter bs b initialReader
    rw [tokenStream, tokenStream, h1, feedChunks_cons]
    simp [feedChunks, List.filter_append]

end MiniSaxVerify
